import Mathlib

set_option maxRecDepth 8000

/-!
Verification of the QR-code scanning client (`src/components/QRScanner.tsx`,
`src/utils/crypto.ts`, `src/App.tsx`).

The development embeds, as executable Lean definitions:
* the `decrypt` fallback wrapper from `src/utils/crypto.ts`, together with a
  model of the cipher pipeline it calls (AES-128-CBC with the fixed key
  `Y0rkn0v3lty!@#$%` and an all-zero IV, PKCS#7 padding, Base64 transport
  encoding and UTF-8 plaintext encoding);
* the scan-result routing of `handleScan` in `src/App.tsx`;
* the camera-session bookkeeping of `QRScanner.tsx` (`startScanning`,
  `handleStop`), with the external `html5-qrcode` engine's fallible calls
  represented by explicit outcome parameters.
-/

namespace QRScan

/-! ## Bounded exhaustive checking -/

/-- Boolean check of `f` on every `i < n`, shaped so that kernel reduction
runs in a tail loop. -/
def allBelow (f : Nat → Bool) : Nat → Bool
  | 0 => true
  | n + 1 => f n && allBelow f n

/-! ## GF(2^8) primitives (modelled from the spec: the repository delegates
the block cipher to the external `crypto-js` library; the spec fixes it as
AES — "symmetric block decryption using a fixed 16-byte key and an all-zero
initialization vector (CBC mode with zero IV)"). -/

/-- Multiplication by `x` in GF(2^8) with the AES reduction polynomial
`x^8 + x^4 + x^3 + x + 1` (0x11b). -/
def xtime (b : Nat) : Nat :=
  (2 * b) ^^^ (if 128 ≤ b then 283 else 0)

/-- Multiplication by 2 in GF(2^8). -/
def g2 (b : Nat) : Nat := xtime b

/-- Multiplication by 3 in GF(2^8). -/
def g3 (b : Nat) : Nat := xtime b ^^^ b

/-- Multiplication by 9 in GF(2^8). -/
def g9 (b : Nat) : Nat := xtime (xtime (xtime b)) ^^^ b

/-- Multiplication by 11 in GF(2^8). -/
def g11 (b : Nat) : Nat := xtime (xtime (xtime b)) ^^^ xtime b ^^^ b

/-- Multiplication by 13 in GF(2^8). -/
def g13 (b : Nat) : Nat := xtime (xtime (xtime b)) ^^^ xtime (xtime b) ^^^ b

/-- Multiplication by 14 in GF(2^8). -/
def g14 (b : Nat) : Nat := xtime (xtime (xtime b)) ^^^ xtime (xtime b) ^^^ xtime b

/-- The AES S-box, packed little-endian into one natural number (byte `b`
sits at bit offset `8*b`).  The table is the FIPS-197 S-box: the byte at
offset `8*b` is the affine transform of the multiplicative inverse of `b`
in GF(2^8); spot values and invertibility are established in the theorems
below. -/
def sboxPacked : Nat := 2869618975290639062594974519597816386035077209210385677284518162336985023502962151465775969507961862820568736543004676439868535775640188584098917533413284844376797297285941524888791401501466624530423689326528054213168201056672989590893583853414110162539122864583953358348775951166211353578440977400428507475679327181038682772945817200201960445064847785221508011893952350688324234443749897213621340677040612747745615276448919507935121141307752692835344166708617454322778699219895865633266409040561742768581056182730443599545881830075941537620590442514083341749674612746994879540562701631131184186066652929592955206755

/-- The inverse AES S-box, packed like `sboxPacked`. -/
def invSboxPacked : Nat := 15785769749828884342349381641981096363179738000380205650940338083111619982568718420166261191398703005748170232611805704157196303061330872280026969925224128193193768962594508714770967646139604422718174787315048227180018877623049221087186576642191304514338137614235628241783007805847129270530950856841486400764657112140097236091222567730363620332611309375046737430203438830593833719428588466121688739068564421474273450162064709239629809347626728710072303178617319436726577534667237755444692000788692193415136619289353224918429728194544458916874716857284226411602766869706570927007876872095880586785662942963508062062930

/-- AES S-box lookup. -/
def sbox (b : Nat) : Nat := (sboxPacked >>> (8 * b)) &&& 255

/-- Inverse AES S-box lookup. -/
def invSbox (b : Nat) : Nat := (invSboxPacked >>> (8 * b)) &&& 255

/-! ## The AES-128 block cipher -/

/-- An AES state: 16 bytes in column-major order (`b(4*c+r)` is row `r`,
column `c`). -/
structure AESState where
  b0 : Nat
  b1 : Nat
  b2 : Nat
  b3 : Nat
  b4 : Nat
  b5 : Nat
  b6 : Nat
  b7 : Nat
  b8 : Nat
  b9 : Nat
  b10 : Nat
  b11 : Nat
  b12 : Nat
  b13 : Nat
  b14 : Nat
  b15 : Nat
deriving DecidableEq

/-- All sixteen bytes of the state are below 256. -/
def stateLt (s : AESState) : Prop :=
  s.b0 < 256 ∧ s.b1 < 256 ∧ s.b2 < 256 ∧ s.b3 < 256 ∧
  s.b4 < 256 ∧ s.b5 < 256 ∧ s.b6 < 256 ∧ s.b7 < 256 ∧
  s.b8 < 256 ∧ s.b9 < 256 ∧ s.b10 < 256 ∧ s.b11 < 256 ∧
  s.b12 < 256 ∧ s.b13 < 256 ∧ s.b14 < 256 ∧ s.b15 < 256

instance (s : AESState) : Decidable (stateLt s) := by
  unfold stateLt; infer_instance

/-- SubBytes: the S-box applied to every byte. -/
def subBytes (s : AESState) : AESState :=
  ⟨sbox s.b0, sbox s.b1, sbox s.b2, sbox s.b3,
   sbox s.b4, sbox s.b5, sbox s.b6, sbox s.b7,
   sbox s.b8, sbox s.b9, sbox s.b10, sbox s.b11,
   sbox s.b12, sbox s.b13, sbox s.b14, sbox s.b15⟩

/-- InvSubBytes. -/
def invSubBytes (s : AESState) : AESState :=
  ⟨invSbox s.b0, invSbox s.b1, invSbox s.b2, invSbox s.b3,
   invSbox s.b4, invSbox s.b5, invSbox s.b6, invSbox s.b7,
   invSbox s.b8, invSbox s.b9, invSbox s.b10, invSbox s.b11,
   invSbox s.b12, invSbox s.b13, invSbox s.b14, invSbox s.b15⟩

/-- ShiftRows: row `r` of the column-major state is rotated left by `r`. -/
def shiftRows (s : AESState) : AESState :=
  ⟨s.b0, s.b5, s.b10, s.b15,
   s.b4, s.b9, s.b14, s.b3,
   s.b8, s.b13, s.b2, s.b7,
   s.b12, s.b1, s.b6, s.b11⟩

/-- InvShiftRows: row `r` rotated right by `r`. -/
def invShiftRows (s : AESState) : AESState :=
  ⟨s.b0, s.b13, s.b10, s.b7,
   s.b4, s.b1, s.b14, s.b11,
   s.b8, s.b5, s.b2, s.b15,
   s.b12, s.b9, s.b6, s.b3⟩

/-- MixColumns on one column. -/
def mixCol (a b c d : Nat) : Nat × Nat × Nat × Nat :=
  (g2 a ^^^ g3 b ^^^ c ^^^ d,
   a ^^^ g2 b ^^^ g3 c ^^^ d,
   a ^^^ b ^^^ g2 c ^^^ g3 d,
   g3 a ^^^ b ^^^ c ^^^ g2 d)

/-- InvMixColumns on one column. -/
def invMixCol (a b c d : Nat) : Nat × Nat × Nat × Nat :=
  (g14 a ^^^ g11 b ^^^ g13 c ^^^ g9 d,
   g9 a ^^^ g14 b ^^^ g11 c ^^^ g13 d,
   g13 a ^^^ g9 b ^^^ g14 c ^^^ g11 d,
   g11 a ^^^ g13 b ^^^ g9 c ^^^ g14 d)

/-- MixColumns applied to each of the four columns. -/
def mixColumns (s : AESState) : AESState :=
  let c0 := mixCol s.b0 s.b1 s.b2 s.b3
  let c1 := mixCol s.b4 s.b5 s.b6 s.b7
  let c2 := mixCol s.b8 s.b9 s.b10 s.b11
  let c3 := mixCol s.b12 s.b13 s.b14 s.b15
  ⟨c0.1, c0.2.1, c0.2.2.1, c0.2.2.2,
   c1.1, c1.2.1, c1.2.2.1, c1.2.2.2,
   c2.1, c2.2.1, c2.2.2.1, c2.2.2.2,
   c3.1, c3.2.1, c3.2.2.1, c3.2.2.2⟩

/-- InvMixColumns applied to each of the four columns. -/
def invMixColumns (s : AESState) : AESState :=
  let c0 := invMixCol s.b0 s.b1 s.b2 s.b3
  let c1 := invMixCol s.b4 s.b5 s.b6 s.b7
  let c2 := invMixCol s.b8 s.b9 s.b10 s.b11
  let c3 := invMixCol s.b12 s.b13 s.b14 s.b15
  ⟨c0.1, c0.2.1, c0.2.2.1, c0.2.2.2,
   c1.1, c1.2.1, c1.2.2.1, c1.2.2.2,
   c2.1, c2.2.1, c2.2.2.1, c2.2.2.2,
   c3.1, c3.2.1, c3.2.2.1, c3.2.2.2⟩

/-- AddRoundKey: bytewise XOR with a round key. -/
def ark (k s : AESState) : AESState :=
  ⟨s.b0 ^^^ k.b0, s.b1 ^^^ k.b1, s.b2 ^^^ k.b2, s.b3 ^^^ k.b3,
   s.b4 ^^^ k.b4, s.b5 ^^^ k.b5, s.b6 ^^^ k.b6, s.b7 ^^^ k.b7,
   s.b8 ^^^ k.b8, s.b9 ^^^ k.b9, s.b10 ^^^ k.b10, s.b11 ^^^ k.b11,
   s.b12 ^^^ k.b12, s.b13 ^^^ k.b13, s.b14 ^^^ k.b14, s.b15 ^^^ k.b15⟩

/-- Read an `AESState` from (the first 16 bytes of) a list, column-major. -/
def listToState (l : List Nat) : AESState :=
  ⟨l.getD 0 0, l.getD 1 0, l.getD 2 0, l.getD 3 0,
   l.getD 4 0, l.getD 5 0, l.getD 6 0, l.getD 7 0,
   l.getD 8 0, l.getD 9 0, l.getD 10 0, l.getD 11 0,
   l.getD 12 0, l.getD 13 0, l.getD 14 0, l.getD 15 0⟩

/-- Flatten an `AESState` back to its 16 bytes. -/
def stateToList (s : AESState) : List Nat :=
  [s.b0, s.b1, s.b2, s.b3, s.b4, s.b5, s.b6, s.b7,
   s.b8, s.b9, s.b10, s.b11, s.b12, s.b13, s.b14, s.b15]

/-! ## AES-128 key schedule -/

/-- Bytewise XOR of two byte lists. -/
def xorBytes (a b : List Nat) : List Nat :=
  List.zipWith (fun x y => x ^^^ y) a b

/-- SubWord of the key schedule. -/
def subWord (w : List Nat) : List Nat := w.map sbox

/-- RotWord of the key schedule. -/
def rotWord : List Nat → List Nat
  | [] => []
  | a :: rest => rest ++ [a]

/-- The round-constant byte: `rconPow n` is `x^n` in GF(2^8). -/
def rconPow : Nat → Nat
  | 0 => 1
  | n + 1 => xtime (rconPow n)

/-- One key-expansion step: append the next four-byte word. -/
def nextWord (ws : List (List Nat)) : List Nat :=
  let i := ws.length
  let prev := ws.getLastD []
  let t :=
    if i % 4 = 0 then
      xorBytes (subWord (rotWord prev)) [rconPow (i / 4 - 1), 0, 0, 0]
    else prev
  xorBytes (ws.getD (i - 4) []) t

/-- Iterate `nextWord`. -/
def expandAux : Nat → List (List Nat) → List (List Nat)
  | 0, ws => ws
  | n + 1, ws => expandAux n (ws ++ [nextWord ws])

/-- The fixed key of the repository, as its 16 UTF-8 bytes
(`'Y0rkn0v3lty!@#$%'` in `src/utils/crypto.ts`). -/
def keyBytes : List Nat :=
  [89, 48, 114, 107, 110, 48, 118, 51, 108, 116, 121, 33, 64, 35, 36, 37]

/-- The 44 words of the expanded key. -/
def keyWords : List (List Nat) :=
  expandAux 40
    [keyBytes.take 4, (keyBytes.drop 4).take 4,
     (keyBytes.drop 8).take 4, (keyBytes.drop 12).take 4]

/-- Round key `r` as an `AESState` (words `4r .. 4r+3`, column-major). -/
def roundKey (r : Nat) : AESState :=
  listToState ((keyWords.drop (4 * r)).take 4).flatten

/-! ## AES-128 block encryption and decryption -/

/-- One middle round of the cipher. -/
def encRound (k s : AESState) : AESState :=
  ark k (mixColumns (shiftRows (subBytes s)))

/-- One middle round of the inverse cipher. -/
def decRound (k s : AESState) : AESState :=
  invMixColumns (ark k (invSubBytes (invShiftRows s)))

/-- AES-128 encryption of one state under the fixed key. -/
def encryptBlockS (s : AESState) : AESState :=
  ark (roundKey 10) (shiftRows (subBytes
    (encRound (roundKey 9)
      (encRound (roundKey 8)
        (encRound (roundKey 7)
          (encRound (roundKey 6)
            (encRound (roundKey 5)
              (encRound (roundKey 4)
                (encRound (roundKey 3)
                  (encRound (roundKey 2)
                    (encRound (roundKey 1)
                      (ark (roundKey 0) s))))))))))))

/-- AES-128 decryption of one state under the fixed key. -/
def decryptBlockS (s : AESState) : AESState :=
  ark (roundKey 0) (invSubBytes (invShiftRows
    (decRound (roundKey 1)
      (decRound (roundKey 2)
        (decRound (roundKey 3)
          (decRound (roundKey 4)
            (decRound (roundKey 5)
              (decRound (roundKey 6)
                (decRound (roundKey 7)
                  (decRound (roundKey 8)
                    (decRound (roundKey 9)
                      (ark (roundKey 10) s))))))))))))

/-- AES-128 encryption on a 16-byte list. -/
def encB (l : List Nat) : List Nat := stateToList (encryptBlockS (listToState l))

/-- AES-128 decryption on a 16-byte list. -/
def decB (l : List Nat) : List Nat := stateToList (decryptBlockS (listToState l))

/-! ## CBC mode, PKCS#7 padding, block chunking -/

/-- The all-zero IV of `src/utils/crypto.ts`
(`CryptoJS.lib.WordArray.create([0x00, 0x00, 0x00, 0x00])`: four zero
words, i.e. 16 zero bytes). -/
def zeroIV : List Nat := List.replicate 16 0

/-- CBC encryption of a list of 16-byte blocks, chaining from `prev`. -/
def cbcEncryptBlocks (prev : List Nat) : List (List Nat) → List (List Nat)
  | [] => []
  | p :: ps =>
    let c := encB (xorBytes prev p)
    c :: cbcEncryptBlocks c ps

/-- CBC decryption of a list of 16-byte blocks, chaining from `prev`. -/
def cbcDecryptBlocks (prev : List Nat) : List (List Nat) → List (List Nat)
  | [] => []
  | c :: cs => xorBytes prev (decB c) :: cbcDecryptBlocks c cs

/-- Split a byte list into 16-byte chunks (last chunk may be shorter). -/
def chunk16 : List Nat → List (List Nat)
  | y0 :: y1 :: y2 :: y3 :: y4 :: y5 :: y6 :: y7 ::
    y8 :: y9 :: y10 :: y11 :: y12 :: y13 :: y14 :: y15 :: rest =>
    [y0, y1, y2, y3, y4, y5, y6, y7, y8, y9, y10, y11, y12, y13, y14, y15]
      :: chunk16 rest
  | [] => []
  | l => [l]

/-- PKCS#7 padding to a multiple of 16 bytes. -/
def pkcs7Pad (bs : List Nat) : List Nat :=
  let n := 16 - bs.length % 16
  bs ++ List.replicate n n

/-- PKCS#7 unpadding as `crypto-js` performs it: read the final byte and
drop that many bytes (no validation). -/
def pkcs7Unpad (bs : List Nat) : List Nat :=
  bs.take (bs.length - bs.getLastD 0)

/-! ## Base64 transport encoding (modelled from the spec: the ciphertext is
"encoded in a text-safe form (e.g. base64)"; `crypto-js` uses standard
Base64 with `=` padding). -/

/-- The Base64 alphabet. -/
def b64Alphabet : List Char :=
  "ABCDEFGHIJKLMNOPQRSTUVWXYZabcdefghijklmnopqrstuvwxyz0123456789+/".data

/-- Character for a sextet. -/
def b64CharOf (k : Nat) : Char := b64Alphabet.getD k '?'

/-- Index search in the alphabet. -/
def b64IdxAux : List Char → Nat → Char → Option Nat
  | [], _, _ => none
  | a :: rest, i, c => if a = c then some i else b64IdxAux rest (i + 1) c

/-- Sextet of a character, if it is in the alphabet. -/
def b64Idx (c : Char) : Option Nat := b64IdxAux b64Alphabet 0 c

/-- Base64 encoding of a byte list. -/
def b64Encode : List Nat → List Char
  | [] => []
  | [a] => [b64CharOf (a / 4), b64CharOf (a % 4 * 16), '=', '=']
  | [a, b] =>
    [b64CharOf (a / 4), b64CharOf (a % 4 * 16 + b / 16), b64CharOf (b % 16 * 4), '=']
  | a :: b :: c :: rest =>
    b64CharOf (a / 4) :: b64CharOf (a % 4 * 16 + b / 16) ::
      b64CharOf (b % 16 * 4 + c / 64) :: b64CharOf (c % 64) :: b64Encode rest

/-- Base64 decoding; `none` on any malformed input (a character outside
the alphabet, `=` anywhere but at the end, a length that is not a multiple
of four). -/
def b64Decode : List Char → Option (List Nat)
  | [] => some []
  | c1 :: c2 :: c3 :: c4 :: rest =>
    match b64Idx c1, b64Idx c2 with
    | some i1, some i2 =>
      if c3 = '=' then
        if c4 = '=' ∧ rest = [] then some [i1 * 4 + i2 / 16] else none
      else
        match b64Idx c3 with
        | some i3 =>
          if c4 = '=' then
            if rest = [] then some [i1 * 4 + i2 / 16, i2 % 16 * 16 + i3 / 4] else none
          else
            match b64Idx c4, b64Decode rest with
            | some i4, some bs =>
              some ((i1 * 4 + i2 / 16) :: (i2 % 16 * 16 + i3 / 4) :: (i3 % 4 * 64 + i4) :: bs)
            | _, _ => none
        | none => none
    | _, _ => none
  | _ => none

/-! ## UTF-8 (modelled from the spec: plaintext is "valid UTF-8";
`crypto-js` stringifies decrypted bytes as UTF-8 and throws on malformed
data). -/

/-- UTF-8 encoding of one code point. -/
def utf8EncodeChar (n : Nat) : List Nat :=
  if n < 128 then [n]
  else if n < 2048 then [192 + n / 64, 128 + n % 64]
  else if n < 65536 then [224 + n / 4096, 128 + n / 64 % 64, 128 + n % 64]
  else [240 + n / 262144, 128 + n / 4096 % 64, 128 + n / 64 % 64, 128 + n % 64]

/-- UTF-8 encoding of a string. -/
def utf8Encode (s : String) : List Nat :=
  (s.data.map (fun c => utf8EncodeChar c.toNat)).flatten

/-- Is `b` a UTF-8 continuation byte? -/
def isCont (b : Nat) : Bool := 128 ≤ b && b < 192

/-- Prepend the character with code point `n` to a decode result. -/
def consChar (n : Nat) (t : Option (List Char)) : Option (List Char) :=
  match t with
  | some cs => some (Char.ofNat n :: cs)
  | none => none

/-- Fuel-indexed UTF-8 decoder (one unit of fuel per decoded character;
written with a bare `Nat.rec` so that it unfolds by plain iota
reduction).  `none` on malformed input: stray or missing continuation
bytes, overlong forms, surrogates, out-of-range code points, or exhausted
fuel. -/
def utf8DecodeF : Nat → List Nat → Option (List Char) :=
  Nat.rec (motive := fun _ => List Nat → Option (List Char))
    (fun l =>
      match l with
      | [] => some []
      | _ :: _ => none)
    (fun _ ih l =>
      match l with
      | [] => some []
      | b :: bs =>
        if b < 128 then consChar b (ih bs)
        else if b < 192 then none
        else if b < 224 then
          match bs with
          | b2 :: rest =>
            if isCont b2 then
              if 128 ≤ (b - 192) * 64 + (b2 - 128) then
                consChar ((b - 192) * 64 + (b2 - 128)) (ih rest)
              else none
            else none
          | [] => none
        else if b < 240 then
          match bs with
          | b2 :: b3 :: rest =>
            if isCont b2 && isCont b3 then
              if 2048 ≤ (b - 224) * 4096 + (b2 - 128) * 64 + (b3 - 128) ∧
                  Nat.isValidChar ((b - 224) * 4096 + (b2 - 128) * 64 + (b3 - 128)) then
                consChar ((b - 224) * 4096 + (b2 - 128) * 64 + (b3 - 128)) (ih rest)
              else none
            else none
          | _ => none
        else if b < 248 then
          match bs with
          | b2 :: b3 :: b4 :: rest =>
            if isCont b2 && isCont b3 && isCont b4 then
              if 65536 ≤ (b - 240) * 262144 + (b2 - 128) * 4096 + (b3 - 128) * 64 + (b4 - 128) ∧
                  (b - 240) * 262144 + (b2 - 128) * 4096 + (b3 - 128) * 64 + (b4 - 128) < 1114112 then
                consChar ((b - 240) * 262144 + (b2 - 128) * 4096 + (b3 - 128) * 64 + (b4 - 128))
                  (ih rest)
              else none
            else none
          | _ => none
        else none)

/-- UTF-8 decoding to code points (the list length is always enough
fuel). -/
def utf8Decode (l : List Nat) : Option (List Char) := utf8DecodeF l.length l

/-- UTF-8 decoding to a string. -/
def utf8DecodeString (bs : List Nat) : Option String :=
  match utf8Decode bs with
  | some cs => some (String.mk cs)
  | none => none

/-! ## The decryptor (`src/utils/crypto.ts`) -/

/-- The raw cipher stage of `CryptoJS.AES.decrypt` under the fixed key and
zero IV: Base64-decode the input and CBC-decrypt it, then unpad.  `none`
models a thrown error. -/
def rawDecrypt (s : String) : Option (List Nat) :=
  match b64Decode s.data with
  | none => none
  | some ct =>
    if ct.length % 16 = 0 then
      some (pkcs7Unpad (cbcDecryptBlocks zeroIV (chunk16 ct)).flatten)
    else none

/-- `decrypt` from `src/utils/crypto.ts`: try the cipher; on a thrown error
return the input (the `catch` branch); on an empty result string return the
input (the `|| encryptString` fallback); otherwise return the plaintext. -/
def decrypt (encryptString : String) : String :=
  match rawDecrypt encryptString with
  | none => encryptString
  | some bs =>
    match utf8DecodeString bs with
    | none => encryptString
    | some t => if t = "" then encryptString else t

/-- Modelled from the spec: the paired encryption routine is not part of
this repository (only its decryptor is); the spec fixes it as the inverse
pipeline — UTF-8 encode, PKCS#7 pad, AES-128-CBC encrypt under the fixed
key `'Y0rkn0v3lty!@#$%'` with the all-zero IV, Base64 encode. -/
def encrypt (x : String) : String :=
  String.mk (b64Encode (cbcEncryptBlocks zeroIV (chunk16 (pkcs7Pad (utf8Encode x)))).flatten)

/-- Every entry of a byte list is below 256. -/
def byteOk (l : List Nat) : Prop := ∀ b ∈ l, b < 256

/-! ## Scan-result routing (`handleScan` in `src/App.tsx`) -/

/-- JavaScript `String.prototype.split` with a one-character separator, on
the character list: `"".split(sep)` is `[""]`, and adjacent separators
yield empty fields. -/
def jsSplit (sep : Char) : List Char → List (List Char)
  | [] => [[]]
  | c :: cs =>
    if c = sep then [] :: jsSplit sep cs
    else
      match jsSplit sep cs with
      | [] => [[c]]
      | r :: rs => (c :: r) :: rs

/-- JavaScript `String.prototype.trim`: strip whitespace from both ends. -/
def jsTrim (l : List Char) : List Char :=
  ((l.dropWhile Char.isWhitespace).reverse.dropWhile Char.isWhitespace).reverse

/-- The fixed image-URL template of `handleScan`:
`https://yorkapi.blob.core.windows.net/yorkimages/<id>.jpg`. -/
def imageUrlFor (id : String) : String :=
  "https://yorkapi.blob.core.windows.net/yorkimages/" ++ id ++ ".jpg"

/-- The outcome of routing one decrypted text: the extracted id (if any)
and the derived image URL (if any). -/
structure RouteResult where
  id : Option String
  imageUrl : Option String
deriving DecidableEq

/-- `handleScan`'s id/image-URL routing, translated branch for branch: if
the text is non-empty and contains a comma, split on commas, trim the first
part and, when non-empty, substitute it into the URL template; otherwise
(the fallback branch) do the same split-trim-substitute on the whole
text. -/
def handleScanRoute (decryptedText : String) : RouteResult :=
  if decryptedText ≠ "" ∧ ',' ∈ decryptedText.data then
    let id := String.mk (jsTrim ((jsSplit ',' decryptedText.data).headD []))
    if id ≠ "" then ⟨some id, some (imageUrlFor id)⟩ else ⟨none, none⟩
  else
    let cleanId := String.mk (jsTrim ((jsSplit ',' decryptedText.data).headD []))
    if cleanId ≠ "" then ⟨some cleanId, some (imageUrlFor cleanId)⟩ else ⟨none, none⟩

/-- The route contract stated by the spec, with no comma test: the id is
the trimmed text before the first comma; the URL is set iff the id is
non-empty. -/
def routeSpec (t : String) : RouteResult :=
  let id := String.mk (jsTrim (t.data.takeWhile (fun c => c ≠ ',')))
  if id ≠ "" then ⟨some id, some (imageUrlFor id)⟩ else ⟨none, none⟩

/-! ## Camera devices and default-device selection
(`startScanning` in `src/components/QRScanner.tsx`) -/

/-- A camera device as enumerated by the platform. -/
structure CameraDevice where
  id : String
  label : String
deriving DecidableEq

/-- `startsWithL pre l`: is `pre` an initial run of `l`? -/
def startsWithL : List Char → List Char → Bool
  | [], _ => true
  | _ :: _, [] => false
  | p :: ps, c :: cs => p = c && startsWithL ps cs

/-- JavaScript `String.prototype.includes` on character lists. -/
def containsSeq : List Char → List Char → Bool
  | [], pat => pat.isEmpty
  | c :: cs, pat => startsWithL pat (c :: cs) || containsSeq cs pat

/-- `d.label.toLowerCase().includes('back')`. -/
def labelHasBack (label : String) : Bool :=
  containsSeq (label.data.map Char.toLower) "back".data

/-- JavaScript `Array.prototype.find` with the back-label predicate. -/
def jsFindBack : List CameraDevice → Option CameraDevice
  | [] => none
  | d :: ds => if labelHasBack d.label then some d else jsFindBack ds

/-- The camera-id choice for a non-empty device list `first :: rest`:
`devices.find(d => d.label.toLowerCase().includes('back'))?.id ||
devices[0].id` — note the JavaScript `||`: an empty found id is falsy and
falls back to the first device's id. -/
def chooseCameraId (first : CameraDevice) (rest : List CameraDevice) : String :=
  match jsFindBack (first :: rest) with
  | some f => if f.id = "" then first.id else f.id
  | none => first.id

/-- Device selection on an arbitrary enumerated list (`none` when empty —
that branch of `startScanning` throws instead of selecting). -/
def selectCameraId : List CameraDevice → Option String
  | [] => none
  | d :: ds => some (chooseCameraId d ds)

/-! ## The camera-session state (`QRScanner.tsx`) -/

/-- The `Html5Qrcode` handle held in `scannerRef`, reduced to the `isScanning`
flag that the component consults, plus the bound device. -/
structure ScannerHandle where
  isScanning : Bool
  boundDevice : Option String
deriving DecidableEq

/-- Outcomes of the external engine's fallible calls during one operation:
whether `scanner.stop()` and `scanner.clear()` throw. -/
structure LibIO where
  stopThrows : Bool
  clearThrows : Bool
deriving DecidableEq

/-- The component state: the `isScanning`, `loading`, `permissionError` and
`errorMessage` React states, and the `scannerRef` ref. -/
structure CState where
  isScanning : Bool
  loading : Bool
  permissionError : Bool
  errorMessage : String
  scannerRef : Option ScannerHandle
deriving DecidableEq

/-- The body of `handleStop`'s `try` block: stop the stream when scanning,
then clear the surface.  An `error` result is a thrown exception, carrying
the handle state at the moment of the throw. -/
def stopAndClear (io : LibIO) (h : ScannerHandle) : Except (ScannerHandle × String) ScannerHandle :=
  if h.isScanning then
    if io.stopThrows then .error (h, "Failed to stop scanner")
    else
      let h2 : ScannerHandle := { h with isScanning := false }
      if io.clearThrows then .error (h2, "Failed to stop scanner") else .ok h2
  else
    if io.clearThrows then .error (h, "Failed to stop scanner") else .ok h

/-- `handleStop`, translated: when a scanner handle exists run
`stopAndClear`, swallowing (only logging) any exception; in every case set
`isScanning` and `loading` to `false`. -/
def handleStop (io : LibIO) (s : CState) : CState :=
  let ref2 : Option ScannerHandle :=
    match s.scannerRef with
    | none => none
    | some h =>
      match stopAndClear io h with
      | .ok h2 => some h2
      | .error (h2, _msg) => some h2
  { s with scannerRef := ref2, isScanning := false, loading := false }

/-! ## `startScanning` (`QRScanner.tsx`) -/

/-- A JavaScript error value: its `message` property and its string
conversion (`toString`). -/
structure JSError where
  message : String
  str : String
deriving DecidableEq

/-- The message surfaced by the `catch` branch of `startScanning`:
`err?.message || err?.toString() || "Unknown error"`. -/
def errToMessage (e : JSError) : String :=
  if e.message ≠ "" then e.message
  else if e.str ≠ "" then e.str
  else "Unknown error"

/-- The wrapping applied to an enumeration failure:
`throw new Error("Could not access camera device. " + err)`.  A fresh
`Error`'s `toString` is `"Error: " ++ message`. -/
def wrapEnumErr (e : JSError) : JSError :=
  { message := "Could not access camera device. " ++ e.str,
    str := "Error: " ++ ("Could not access camera device. " ++ e.str) }

/-- The `Error` thrown for an empty device list. -/
def noDeviceErr : JSError :=
  { message := "No camera devices found.",
    str := "Error: No camera devices found." }

/-- The environment of one `startScanning` attempt: the result of
`Html5Qrcode.getCameras()` and, when a device is started, whether
`scanner.start(...)` throws. -/
structure StartEnv where
  enumerate : Except JSError (List CameraDevice)
  startFails : Option JSError

/-- The `catch` branch of `startScanning`: record the error and stop. -/
def startCatch (io : LibIO) (e : JSError) (s : CState) : CState :=
  handleStop io { s with permissionError := true, errorMessage := errToMessage e }

/-- `startScanning`, translated: reset the UI state (`loading := true`,
`permissionError := false`, `errorMessage := ""`, `isScanning := true`),
enumerate devices (an enumeration error is wrapped), take the zero-device
branch as a thrown error, otherwise choose a camera id, create the handle
if absent, start it (a start failure goes to the `catch` branch) and clear
`loading`. -/
def startScanning (env : StartEnv) (io : LibIO) (s : CState) : CState :=
  let s1 : CState :=
    { s with loading := true, permissionError := false, errorMessage := "", isScanning := true }
  match env.enumerate with
  | .error e => startCatch io (wrapEnumErr e) s1
  | .ok [] => startCatch io noDeviceErr s1
  | .ok (d :: ds) =>
    let cameraId := chooseCameraId d ds
    let ref : ScannerHandle :=
      match s1.scannerRef with
      | none => { isScanning := false, boundDevice := none }
      | some h => h
    match env.startFails with
    | some e => startCatch io e { s1 with scannerRef := some ref }
    | none =>
      { s1 with
          scannerRef := some { ref with isScanning := true, boundDevice := some cameraId },
          loading := false }

/-- The component's user events: the `Retry Camera` and `Stop Scanning`
buttons. -/
inductive UIEvent where
  | retryClick
  | stopClick
deriving DecidableEq

/-- One step of the mounted component: without a user event no handler
runs and the state is unchanged; the retry button (rendered only in the
error state) restarts scanning; the stop button (rendered only while
actively scanning) stops. -/
def componentStep (env : StartEnv) (io : LibIO) (s : CState) : Option UIEvent → CState
  | none => s
  | some .retryClick => if s.permissionError then startScanning env io s else s
  | some .stopClick =>
    if s.isScanning ∧ ¬s.loading ∧ ¬s.permissionError then handleStop io s else s

/-! # Theorems -/

/-! ## The exhaustive checker -/

theorem allBelow_spec (f : Nat → Bool) :
    ∀ N, allBelow f N = true → ∀ i, i < N → f i = true := by
  intro N
  induction N with
  | zero => intro _ i hi; omega
  | succ n ih =>
    intro h i hi
    rw [allBelow, Bool.and_eq_true] at h
    rcases Nat.lt_succ_iff_lt_or_eq.mp hi with h' | h'
    · exact ih h.2 i h'
    · subst h'; exact h.1

/-! ## XOR algebra -/

theorem xor_left_comm (a b c : Nat) : a ^^^ (b ^^^ c) = b ^^^ (a ^^^ c) := by
  rw [← Nat.xor_assoc, Nat.xor_comm a b, Nat.xor_assoc]

theorem xor_pair (x y c : Nat) : (x ^^^ c) ^^^ (y ^^^ c) = x ^^^ y := by
  rw [Nat.xor_assoc, xor_left_comm c y c, Nat.xor_self, Nat.xor_zero]

theorem xor_right_comm (x c y : Nat) : (x ^^^ c) ^^^ y = (x ^^^ y) ^^^ c := by
  rw [Nat.xor_assoc, Nat.xor_comm c y, ← Nat.xor_assoc]

theorem xor8_lt {a b : Nat} (ha : a < 256) (hb : b < 256) : a ^^^ b < 256 := by
  have h := Nat.xor_lt_two_pow (show a < 2 ^ 8 by omega) (show b < 2 ^ 8 by omega)
  omega

/-! ## Byte-level facts about the GF(2^8) primitives -/

theorem ck_xtime_lt : allBelow (fun b => decide (xtime b < 256)) 256 = true := by decide

theorem xtime_lt {b : Nat} (hb : b < 256) : xtime b < 256 :=
  of_decide_eq_true (allBelow_spec _ 256 ck_xtime_lt b hb)

theorem two_mul_xor (a b : Nat) : 2 * (a ^^^ b) = 2 * a ^^^ 2 * b := by
  have h : ∀ x : Nat, 2 * x = x <<< 1 := by
    intro x; rw [Nat.shiftLeft_eq, pow_one, Nat.mul_comm]
  rw [h, h, h]
  apply Nat.eq_of_testBit_eq
  intro i
  simp [Nat.testBit_shiftLeft, Nat.testBit_xor, Bool.and_xor_distrib_left]

theorem div128_xor (a b : Nat) : (a ^^^ b) / 128 = a / 128 ^^^ b / 128 := by
  have h : ∀ x : Nat, x / 128 = x >>> 7 := by
    intro x; rw [Nat.shiftRight_eq_div_pow]
  rw [h, h, h]
  apply Nat.eq_of_testBit_eq
  intro i
  simp [Nat.testBit_shiftRight, Nat.testBit_xor]

theorem xtime_linear {a b : Nat} (ha : a < 256) (hb : b < 256) :
    xtime (a ^^^ b) = xtime a ^^^ xtime b := by
  have hd : (a ^^^ b) / 128 = a / 128 ^^^ b / 128 := div128_xor a b
  have hab : a ^^^ b < 256 := xor8_lt ha hb
  have hxa : a / 128 = 0 ∨ a / 128 = 1 := by omega
  have hxb : b / 128 = 0 ∨ b / 128 = 1 := by omega
  unfold xtime
  rcases hxa with h1 | h1 <;> rcases hxb with h2 | h2 <;>
    rw [h1, h2] at hd <;>
    simp only [Nat.xor_self, Nat.xor_zero, Nat.zero_xor] at hd
  · rw [if_neg (by omega), if_neg (by omega), if_neg (by omega),
      Nat.xor_zero, Nat.xor_zero, Nat.xor_zero, two_mul_xor]
  · rw [if_pos (by omega), if_neg (by omega), if_pos (by omega),
      Nat.xor_zero, two_mul_xor, Nat.xor_assoc]
  · rw [if_pos (by omega), if_pos (by omega), if_neg (by omega),
      Nat.xor_zero, two_mul_xor, xor_right_comm]
  · rw [if_neg (by omega), if_pos (by omega), if_pos (by omega),
      Nat.xor_zero, two_mul_xor, xor_pair]

theorem g2_zero : g2 0 = 0 := rfl

theorem g3_zero : g3 0 = 0 := rfl

theorem g2_lt {b : Nat} (hb : b < 256) : g2 b < 256 := xtime_lt hb

theorem g3_lt {b : Nat} (hb : b < 256) : g3 b < 256 := xor8_lt (xtime_lt hb) hb

theorem g9_lt {b : Nat} (hb : b < 256) : g9 b < 256 :=
  xor8_lt (xtime_lt (xtime_lt (xtime_lt hb))) hb

theorem g11_lt {b : Nat} (hb : b < 256) : g11 b < 256 :=
  xor8_lt (xor8_lt (xtime_lt (xtime_lt (xtime_lt hb))) (xtime_lt hb)) hb

theorem g13_lt {b : Nat} (hb : b < 256) : g13 b < 256 :=
  xor8_lt (xor8_lt (xtime_lt (xtime_lt (xtime_lt hb))) (xtime_lt (xtime_lt hb))) hb

theorem g14_lt {b : Nat} (hb : b < 256) : g14 b < 256 :=
  xor8_lt (xor8_lt (xtime_lt (xtime_lt (xtime_lt hb))) (xtime_lt (xtime_lt hb))) (xtime_lt hb)

theorem g2_linear {a b : Nat} (ha : a < 256) (hb : b < 256) :
    g2 (a ^^^ b) = g2 a ^^^ g2 b := xtime_linear ha hb

theorem g3_linear {a b : Nat} (ha : a < 256) (hb : b < 256) :
    g3 (a ^^^ b) = g3 a ^^^ g3 b := by
  unfold g3
  rw [xtime_linear ha hb]
  simp [Nat.xor_assoc, Nat.xor_comm, xor_left_comm]

theorem g9_linear {a b : Nat} (ha : a < 256) (hb : b < 256) :
    g9 (a ^^^ b) = g9 a ^^^ g9 b := by
  unfold g9
  rw [xtime_linear ha hb, xtime_linear (xtime_lt ha) (xtime_lt hb),
    xtime_linear (xtime_lt (xtime_lt ha)) (xtime_lt (xtime_lt hb))]
  simp [Nat.xor_assoc, Nat.xor_comm, xor_left_comm]

theorem g11_linear {a b : Nat} (ha : a < 256) (hb : b < 256) :
    g11 (a ^^^ b) = g11 a ^^^ g11 b := by
  unfold g11
  rw [xtime_linear ha hb, xtime_linear (xtime_lt ha) (xtime_lt hb),
    xtime_linear (xtime_lt (xtime_lt ha)) (xtime_lt (xtime_lt hb))]
  simp [Nat.xor_assoc, Nat.xor_comm, xor_left_comm]

theorem g13_linear {a b : Nat} (ha : a < 256) (hb : b < 256) :
    g13 (a ^^^ b) = g13 a ^^^ g13 b := by
  unfold g13
  rw [xtime_linear ha hb, xtime_linear (xtime_lt ha) (xtime_lt hb),
    xtime_linear (xtime_lt (xtime_lt ha)) (xtime_lt (xtime_lt hb))]
  simp [Nat.xor_assoc, Nat.xor_comm, xor_left_comm]

theorem g14_linear {a b : Nat} (ha : a < 256) (hb : b < 256) :
    g14 (a ^^^ b) = g14 a ^^^ g14 b := by
  unfold g14
  rw [xtime_linear ha hb, xtime_linear (xtime_lt ha) (xtime_lt hb),
    xtime_linear (xtime_lt (xtime_lt ha)) (xtime_lt (xtime_lt hb))]
  simp [Nat.xor_assoc, Nat.xor_comm, xor_left_comm]

/-! ## S-box facts -/

theorem sbox_lt (b : Nat) : sbox b < 256 :=
  Nat.lt_succ_of_le (Nat.and_le_right)

theorem invSbox_lt (b : Nat) : invSbox b < 256 :=
  Nat.lt_succ_of_le (Nat.and_le_right)

/-- The packed tables agree with FIPS-197 on the standard spot values. -/
theorem sbox_spot :
    sbox 0 = 0x63 ∧ sbox 1 = 0x7c ∧ sbox 0x53 = 0xed ∧
    invSbox 0x63 = 0 ∧ invSbox 0xed = 0x53 := by decide

theorem ck_invSbox_sbox :
    allBelow (fun b => decide (invSbox (sbox b) = b)) 256 = true := by decide!

theorem invSbox_sbox {b : Nat} (hb : b < 256) : invSbox (sbox b) = b :=
  of_decide_eq_true (allBelow_spec _ 256 ck_invSbox_sbox b hb)

/-! ## MixColumns inversion -/

theorem mixCol_decomp (a b c d : Nat) :
    mixCol a b c d =
      ((mixCol a 0 0 0).1 ^^^ ((mixCol 0 b 0 0).1 ^^^ ((mixCol 0 0 c 0).1 ^^^ (mixCol 0 0 0 d).1)),
       (mixCol a 0 0 0).2.1 ^^^ ((mixCol 0 b 0 0).2.1 ^^^ ((mixCol 0 0 c 0).2.1 ^^^ (mixCol 0 0 0 d).2.1)),
       (mixCol a 0 0 0).2.2.1 ^^^ ((mixCol 0 b 0 0).2.2.1 ^^^ ((mixCol 0 0 c 0).2.2.1 ^^^ (mixCol 0 0 0 d).2.2.1)),
       (mixCol a 0 0 0).2.2.2 ^^^ ((mixCol 0 b 0 0).2.2.2 ^^^ ((mixCol 0 0 c 0).2.2.2 ^^^ (mixCol 0 0 0 d).2.2.2))) := by
  simp [mixCol, g2_zero, g3_zero, Nat.xor_zero, Nat.zero_xor, Nat.xor_assoc]

theorem invMixCol_linear {y1 b1 c1 d1 y2 b2 c2 d2 : Nat}
    (ha1 : y1 < 256) (hb1 : b1 < 256) (hc1 : c1 < 256) (hd1 : d1 < 256)
    (ha2 : y2 < 256) (hb2 : b2 < 256) (hc2 : c2 < 256) (hd2 : d2 < 256) :
    invMixCol (y1 ^^^ y2) (b1 ^^^ b2) (c1 ^^^ c2) (d1 ^^^ d2) =
      ((invMixCol y1 b1 c1 d1).1 ^^^ (invMixCol y2 b2 c2 d2).1,
       (invMixCol y1 b1 c1 d1).2.1 ^^^ (invMixCol y2 b2 c2 d2).2.1,
       (invMixCol y1 b1 c1 d1).2.2.1 ^^^ (invMixCol y2 b2 c2 d2).2.2.1,
       (invMixCol y1 b1 c1 d1).2.2.2 ^^^ (invMixCol y2 b2 c2 d2).2.2.2) := by
  simp only [invMixCol,
    g9_linear ha1 ha2, g11_linear ha1 ha2, g13_linear ha1 ha2, g14_linear ha1 ha2,
    g9_linear hb1 hb2, g11_linear hb1 hb2, g13_linear hb1 hb2, g14_linear hb1 hb2,
    g9_linear hc1 hc2, g11_linear hc1 hc2, g13_linear hc1 hc2, g14_linear hc1 hc2,
    g9_linear hd1 hd2, g11_linear hd1 hd2, g13_linear hd1 hd2, g14_linear hd1 hd2]
  refine Prod.ext ?_ (Prod.ext ?_ (Prod.ext ?_ ?_)) <;>
    simp [Nat.xor_assoc, Nat.xor_comm, xor_left_comm]

theorem ck_invMixCol_basis1 :
    allBelow (fun x => decide
      (invMixCol (mixCol x 0 0 0).1 (mixCol x 0 0 0).2.1 (mixCol x 0 0 0).2.2.1 (mixCol x 0 0 0).2.2.2
        = (x, 0, 0, 0))) 256 = true := by decide!

theorem ck_invMixCol_basis2 :
    allBelow (fun x => decide
      (invMixCol (mixCol 0 x 0 0).1 (mixCol 0 x 0 0).2.1 (mixCol 0 x 0 0).2.2.1 (mixCol 0 x 0 0).2.2.2
        = (0, x, 0, 0))) 256 = true := by decide!

theorem ck_invMixCol_basis3 :
    allBelow (fun x => decide
      (invMixCol (mixCol 0 0 x 0).1 (mixCol 0 0 x 0).2.1 (mixCol 0 0 x 0).2.2.1 (mixCol 0 0 x 0).2.2.2
        = (0, 0, x, 0))) 256 = true := by decide!

theorem ck_invMixCol_basis4 :
    allBelow (fun x => decide
      (invMixCol (mixCol 0 0 0 x).1 (mixCol 0 0 0 x).2.1 (mixCol 0 0 0 x).2.2.1 (mixCol 0 0 0 x).2.2.2
        = (0, 0, 0, x))) 256 = true := by decide!

theorem invMixCol_basis1 {x : Nat} (hx : x < 256) :
    invMixCol (mixCol x 0 0 0).1 (mixCol x 0 0 0).2.1 (mixCol x 0 0 0).2.2.1 (mixCol x 0 0 0).2.2.2
      = (x, 0, 0, 0) :=
  of_decide_eq_true (allBelow_spec _ 256 ck_invMixCol_basis1 x hx)

theorem invMixCol_basis2 {x : Nat} (hx : x < 256) :
    invMixCol (mixCol 0 x 0 0).1 (mixCol 0 x 0 0).2.1 (mixCol 0 x 0 0).2.2.1 (mixCol 0 x 0 0).2.2.2
      = (0, x, 0, 0) :=
  of_decide_eq_true (allBelow_spec _ 256 ck_invMixCol_basis2 x hx)

theorem invMixCol_basis3 {x : Nat} (hx : x < 256) :
    invMixCol (mixCol 0 0 x 0).1 (mixCol 0 0 x 0).2.1 (mixCol 0 0 x 0).2.2.1 (mixCol 0 0 x 0).2.2.2
      = (0, 0, x, 0) :=
  of_decide_eq_true (allBelow_spec _ 256 ck_invMixCol_basis3 x hx)

theorem invMixCol_basis4 {x : Nat} (hx : x < 256) :
    invMixCol (mixCol 0 0 0 x).1 (mixCol 0 0 0 x).2.1 (mixCol 0 0 0 x).2.2.1 (mixCol 0 0 0 x).2.2.2
      = (0, 0, 0, x) :=
  of_decide_eq_true (allBelow_spec _ 256 ck_invMixCol_basis4 x hx)

theorem mixCol_lt_1 {a b c d : Nat} (ha : a < 256) (hb : b < 256) (hc : c < 256) (hd : d < 256) :
    (mixCol a b c d).1 < 256 :=
  xor8_lt (xor8_lt (xor8_lt (g2_lt ha) (g3_lt hb)) hc) hd

theorem mixCol_lt_2 {a b c d : Nat} (ha : a < 256) (hb : b < 256) (hc : c < 256) (hd : d < 256) :
    (mixCol a b c d).2.1 < 256 :=
  xor8_lt (xor8_lt (xor8_lt ha (g2_lt hb)) (g3_lt hc)) hd

theorem mixCol_lt_3 {a b c d : Nat} (ha : a < 256) (hb : b < 256) (hc : c < 256) (hd : d < 256) :
    (mixCol a b c d).2.2.1 < 256 :=
  xor8_lt (xor8_lt (xor8_lt ha hb) (g2_lt hc)) (g3_lt hd)

theorem mixCol_lt_4 {a b c d : Nat} (ha : a < 256) (hb : b < 256) (hc : c < 256) (hd : d < 256) :
    (mixCol a b c d).2.2.2 < 256 :=
  xor8_lt (xor8_lt (xor8_lt (g3_lt ha) hb) hc) (g2_lt hd)

theorem invMixCol_mixCol {a b c d : Nat}
    (ha : a < 256) (hb : b < 256) (hc : c < 256) (hd : d < 256) :
    invMixCol (mixCol a b c d).1 (mixCol a b c d).2.1 (mixCol a b c d).2.2.1 (mixCol a b c d).2.2.2
      = (a, b, c, d) := by
  have h0 : (0 : Nat) < 256 := by omega
  rw [mixCol_decomp a b c d]
  simp only
  rw [invMixCol_linear (mixCol_lt_1 ha h0 h0 h0) (mixCol_lt_2 ha h0 h0 h0)
      (mixCol_lt_3 ha h0 h0 h0) (mixCol_lt_4 ha h0 h0 h0)
      (xor8_lt (mixCol_lt_1 h0 hb h0 h0) (xor8_lt (mixCol_lt_1 h0 h0 hc h0) (mixCol_lt_1 h0 h0 h0 hd)))
      (xor8_lt (mixCol_lt_2 h0 hb h0 h0) (xor8_lt (mixCol_lt_2 h0 h0 hc h0) (mixCol_lt_2 h0 h0 h0 hd)))
      (xor8_lt (mixCol_lt_3 h0 hb h0 h0) (xor8_lt (mixCol_lt_3 h0 h0 hc h0) (mixCol_lt_3 h0 h0 h0 hd)))
      (xor8_lt (mixCol_lt_4 h0 hb h0 h0) (xor8_lt (mixCol_lt_4 h0 h0 hc h0) (mixCol_lt_4 h0 h0 h0 hd)))]
  rw [invMixCol_linear (mixCol_lt_1 h0 hb h0 h0) (mixCol_lt_2 h0 hb h0 h0)
      (mixCol_lt_3 h0 hb h0 h0) (mixCol_lt_4 h0 hb h0 h0)
      (xor8_lt (mixCol_lt_1 h0 h0 hc h0) (mixCol_lt_1 h0 h0 h0 hd))
      (xor8_lt (mixCol_lt_2 h0 h0 hc h0) (mixCol_lt_2 h0 h0 h0 hd))
      (xor8_lt (mixCol_lt_3 h0 h0 hc h0) (mixCol_lt_3 h0 h0 h0 hd))
      (xor8_lt (mixCol_lt_4 h0 h0 hc h0) (mixCol_lt_4 h0 h0 h0 hd))]
  rw [invMixCol_linear (mixCol_lt_1 h0 h0 hc h0) (mixCol_lt_2 h0 h0 hc h0)
      (mixCol_lt_3 h0 h0 hc h0) (mixCol_lt_4 h0 h0 hc h0)
      (mixCol_lt_1 h0 h0 h0 hd) (mixCol_lt_2 h0 h0 h0 hd)
      (mixCol_lt_3 h0 h0 h0 hd) (mixCol_lt_4 h0 h0 h0 hd)]
  rw [invMixCol_basis1 ha, invMixCol_basis2 hb, invMixCol_basis3 hc, invMixCol_basis4 hd]
  simp

/-! ## State-level round-operation facts -/

theorem invShiftRows_shiftRows (s : AESState) : invShiftRows (shiftRows s) = s := rfl

theorem subBytes_lt (s : AESState) : stateLt (subBytes s) :=
  ⟨sbox_lt _, sbox_lt _, sbox_lt _, sbox_lt _, sbox_lt _, sbox_lt _, sbox_lt _, sbox_lt _,
   sbox_lt _, sbox_lt _, sbox_lt _, sbox_lt _, sbox_lt _, sbox_lt _, sbox_lt _, sbox_lt _⟩

theorem invSubBytes_subBytes {s : AESState} (hs : stateLt s) :
    invSubBytes (subBytes s) = s := by
  cases s
  obtain ⟨h0, h1, h2, h3, h4, h5, h6, h7, h8, h9, h10, h11, h12, h13, h14, h15⟩ := hs
  simp only [subBytes, invSubBytes, AESState.mk.injEq]
  exact ⟨invSbox_sbox h0, invSbox_sbox h1, invSbox_sbox h2, invSbox_sbox h3,
    invSbox_sbox h4, invSbox_sbox h5, invSbox_sbox h6, invSbox_sbox h7,
    invSbox_sbox h8, invSbox_sbox h9, invSbox_sbox h10, invSbox_sbox h11,
    invSbox_sbox h12, invSbox_sbox h13, invSbox_sbox h14, invSbox_sbox h15⟩

theorem shiftRows_lt {s : AESState} (hs : stateLt s) : stateLt (shiftRows s) := by
  obtain ⟨h0, h1, h2, h3, h4, h5, h6, h7, h8, h9, h10, h11, h12, h13, h14, h15⟩ := hs
  exact ⟨h0, h5, h10, h15, h4, h9, h14, h3, h8, h13, h2, h7, h12, h1, h6, h11⟩

theorem mixColumns_lt {s : AESState} (hs : stateLt s) : stateLt (mixColumns s) := by
  obtain ⟨h0, h1, h2, h3, h4, h5, h6, h7, h8, h9, h10, h11, h12, h13, h14, h15⟩ := hs
  exact ⟨mixCol_lt_1 h0 h1 h2 h3, mixCol_lt_2 h0 h1 h2 h3,
    mixCol_lt_3 h0 h1 h2 h3, mixCol_lt_4 h0 h1 h2 h3,
    mixCol_lt_1 h4 h5 h6 h7, mixCol_lt_2 h4 h5 h6 h7,
    mixCol_lt_3 h4 h5 h6 h7, mixCol_lt_4 h4 h5 h6 h7,
    mixCol_lt_1 h8 h9 h10 h11, mixCol_lt_2 h8 h9 h10 h11,
    mixCol_lt_3 h8 h9 h10 h11, mixCol_lt_4 h8 h9 h10 h11,
    mixCol_lt_1 h12 h13 h14 h15, mixCol_lt_2 h12 h13 h14 h15,
    mixCol_lt_3 h12 h13 h14 h15, mixCol_lt_4 h12 h13 h14 h15⟩

theorem ark_lt {k s : AESState} (hk : stateLt k) (hs : stateLt s) : stateLt (ark k s) := by
  obtain ⟨k0, k1, k2, k3, k4, k5, k6, k7, k8, k9, k10, k11, k12, k13, k14, k15⟩ := hk
  obtain ⟨h0, h1, h2, h3, h4, h5, h6, h7, h8, h9, h10, h11, h12, h13, h14, h15⟩ := hs
  exact ⟨xor8_lt h0 k0, xor8_lt h1 k1, xor8_lt h2 k2, xor8_lt h3 k3,
    xor8_lt h4 k4, xor8_lt h5 k5, xor8_lt h6 k6, xor8_lt h7 k7,
    xor8_lt h8 k8, xor8_lt h9 k9, xor8_lt h10 k10, xor8_lt h11 k11,
    xor8_lt h12 k12, xor8_lt h13 k13, xor8_lt h14 k14, xor8_lt h15 k15⟩

theorem ark_ark (k s : AESState) : ark k (ark k s) = s := by
  cases s
  cases k
  simp [ark, Nat.xor_cancel_right]

theorem invMixColumns_mixColumns {s : AESState} (hs : stateLt s) :
    invMixColumns (mixColumns s) = s := by
  cases s
  obtain ⟨h0, h1, h2, h3, h4, h5, h6, h7, h8, h9, h10, h11, h12, h13, h14, h15⟩ := hs
  simp only [mixColumns, invMixColumns]
  rw [invMixCol_mixCol h0 h1 h2 h3, invMixCol_mixCol h4 h5 h6 h7,
    invMixCol_mixCol h8 h9 h10 h11, invMixCol_mixCol h12 h13 h14 h15]

theorem encRound_lt {k : AESState} (s : AESState) (hk : stateLt k) :
    stateLt (encRound k s) :=
  ark_lt hk (mixColumns_lt (shiftRows_lt (subBytes_lt s)))

theorem decRound_encRound {k : AESState} (v : AESState) (hk : stateLt k) :
    decRound k (shiftRows (subBytes (encRound k v))) = shiftRows (subBytes v) := by
  unfold decRound encRound
  rw [invShiftRows_shiftRows, invSubBytes_subBytes (ark_lt hk (mixColumns_lt (shiftRows_lt (subBytes_lt v)))),
    ark_ark, invMixColumns_mixColumns (shiftRows_lt (subBytes_lt v))]

/-- All eleven round keys of the fixed key are byte-bounded. -/
theorem roundKeys_lt :
    stateLt (roundKey 0) ∧ stateLt (roundKey 1) ∧ stateLt (roundKey 2) ∧
    stateLt (roundKey 3) ∧ stateLt (roundKey 4) ∧ stateLt (roundKey 5) ∧
    stateLt (roundKey 6) ∧ stateLt (roundKey 7) ∧ stateLt (roundKey 8) ∧
    stateLt (roundKey 9) ∧ stateLt (roundKey 10) := by decide!

/-- AES-128 block decryption inverts block encryption on byte states. -/
theorem decryptBlockS_encryptBlockS {s : AESState} (hs : stateLt s) :
    decryptBlockS (encryptBlockS s) = s := by
  obtain ⟨hk0, hk1, hk2, hk3, hk4, hk5, hk6, hk7, hk8, hk9, hk10⟩ := roundKeys_lt
  have hE0 : stateLt (ark (roundKey 0) s) := ark_lt hk0 hs
  unfold encryptBlockS decryptBlockS
  rw [ark_ark,
    decRound_encRound _ hk9,
    decRound_encRound _ hk8,
    decRound_encRound _ hk7,
    decRound_encRound _ hk6,
    decRound_encRound _ hk5,
    decRound_encRound _ hk4,
    decRound_encRound _ hk3,
    decRound_encRound _ hk2,
    decRound_encRound _ hk1,
    invShiftRows_shiftRows, invSubBytes_subBytes hE0, ark_ark]

theorem encryptBlockS_lt (s : AESState) : stateLt (encryptBlockS s) := by
  obtain ⟨hk0, hk1, hk2, hk3, hk4, hk5, hk6, hk7, hk8, hk9, hk10⟩ := roundKeys_lt
  unfold encryptBlockS
  exact ark_lt hk10 (shiftRows_lt (subBytes_lt _))

/-! ## Byte lists, blocks and CBC -/

theorem byteOk_cons {a : Nat} {l : List Nat} : byteOk (a :: l) ↔ a < 256 ∧ byteOk l := by
  simp [byteOk]

theorem cons16_of_ge {l : List Nat} (h : 16 ≤ l.length) :
    ∃ y0 y1 y2 y3 y4 y5 y6 y7 y8 y9 y10 y11 y12 y13 y14 y15 rest,
      l = y0 :: y1 :: y2 :: y3 :: y4 :: y5 :: y6 :: y7 ::
        y8 :: y9 :: y10 :: y11 :: y12 :: y13 :: y14 :: y15 :: rest := by
  rcases l with _ | ⟨y0, l⟩; · simp at h
  rcases l with _ | ⟨y1, l⟩; · simp at h
  rcases l with _ | ⟨y2, l⟩; · simp at h
  rcases l with _ | ⟨y3, l⟩; · simp at h
  rcases l with _ | ⟨y4, l⟩; · simp at h
  rcases l with _ | ⟨y5, l⟩; · simp at h
  rcases l with _ | ⟨y6, l⟩; · simp at h
  rcases l with _ | ⟨y7, l⟩; · simp at h
  rcases l with _ | ⟨y8, l⟩; · simp at h
  rcases l with _ | ⟨y9, l⟩; · simp at h
  rcases l with _ | ⟨y10, l⟩; · simp at h
  rcases l with _ | ⟨y11, l⟩; · simp at h
  rcases l with _ | ⟨y12, l⟩; · simp at h
  rcases l with _ | ⟨y13, l⟩; · simp at h
  rcases l with _ | ⟨y14, l⟩; · simp at h
  rcases l with _ | ⟨y15, l⟩; · simp at h
  exact ⟨y0, y1, y2, y3, y4, y5, y6, y7, y8, y9, y10, y11, y12, y13, y14, y15, l, rfl⟩

theorem length16_cases {l : List Nat} (h : l.length = 16) :
    ∃ y0 y1 y2 y3 y4 y5 y6 y7 y8 y9 y10 y11 y12 y13 y14 y15,
      l = [y0, y1, y2, y3, y4, y5, y6, y7, y8, y9, y10, y11, y12, y13, y14, y15] := by
  obtain ⟨y0, y1, y2, y3, y4, y5, y6, y7, y8, y9, y10, y11, y12, y13, y14, y15, rest, rfl⟩ :=
    cons16_of_ge (show 16 ≤ l.length by omega)
  have hr : rest.length = 0 := by simp only [List.length_cons] at h; omega
  have : rest = [] := List.length_eq_zero.mp hr
  subst this
  exact ⟨y0, y1, y2, y3, y4, y5, y6, y7, y8, y9, y10, y11, y12, y13, y14, y15, rfl⟩

theorem listToState_stateToList (s : AESState) : listToState (stateToList s) = s := rfl

theorem stateToList_listToState {l : List Nat} (h : l.length = 16) :
    stateToList (listToState l) = l := by
  obtain ⟨y0, y1, y2, y3, y4, y5, y6, y7, y8, y9, y10, y11, y12, y13, y14, y15, rfl⟩ :=
    length16_cases h
  rfl

theorem byteOk_getD {l : List Nat} (h : byteOk l) (n : Nat) : l.getD n 0 < 256 := by
  induction l generalizing n with
  | nil =>
    have : List.getD [] n (0 : Nat) = 0 := by cases n <;> rfl
    omega
  | cons a t ih =>
    cases n with
    | zero => exact h a (List.mem_cons_self a t)
    | succ m => exact ih (byteOk_cons.mp h).2 m

theorem listToState_lt {l : List Nat} (h : byteOk l) : stateLt (listToState l) :=
  ⟨byteOk_getD h 0, byteOk_getD h 1, byteOk_getD h 2, byteOk_getD h 3,
   byteOk_getD h 4, byteOk_getD h 5, byteOk_getD h 6, byteOk_getD h 7,
   byteOk_getD h 8, byteOk_getD h 9, byteOk_getD h 10, byteOk_getD h 11,
   byteOk_getD h 12, byteOk_getD h 13, byteOk_getD h 14, byteOk_getD h 15⟩

theorem stateToList_ok {s : AESState} (hs : stateLt s) : byteOk (stateToList s) := by
  cases s
  obtain ⟨h0, h1, h2, h3, h4, h5, h6, h7, h8, h9, h10, h11, h12, h13, h14, h15⟩ := hs
  intro b hb
  simp only [stateToList, List.mem_cons, List.not_mem_nil, or_false] at hb
  rcases hb with rfl | rfl | rfl | rfl | rfl | rfl | rfl | rfl |
    rfl | rfl | rfl | rfl | rfl | rfl | rfl | rfl <;> assumption

theorem encB_length (l : List Nat) : (encB l).length = 16 := rfl

theorem encB_ok (l : List Nat) : byteOk (encB l) :=
  stateToList_ok (encryptBlockS_lt (listToState l))

theorem decB_encB {l : List Nat} (h16 : l.length = 16) (hok : byteOk l) :
    decB (encB l) = l := by
  unfold decB encB
  rw [listToState_stateToList, decryptBlockS_encryptBlockS (listToState_lt hok),
    stateToList_listToState h16]

theorem xorBytes_length (a b : List Nat) : (xorBytes a b).length = min a.length b.length :=
  List.length_zipWith _ a b

theorem xorBytes_ok {a b : List Nat} (ha : byteOk a) (hb : byteOk b) :
    byteOk (xorBytes a b) := by
  induction a generalizing b with
  | nil => intro x hx; simp [xorBytes] at hx
  | cons a as ih =>
    cases b with
    | nil => intro x hx; simp [xorBytes] at hx
    | cons b bs =>
      intro x hx
      simp only [xorBytes, List.zipWith_cons_cons, List.mem_cons] at hx
      rcases hx with rfl | hx
      · exact xor8_lt ((byteOk_cons.mp ha).1) ((byteOk_cons.mp hb).1)
      · exact ih (byteOk_cons.mp ha).2 (byteOk_cons.mp hb).2 x hx

theorem xorBytes_cancel {a b : List Nat} (h : b.length ≤ a.length) :
    xorBytes a (xorBytes a b) = b := by
  induction b generalizing a with
  | nil => simp [xorBytes]
  | cons x bs ih =>
    cases a with
    | nil => simp at h
    | cons y ys =>
      simp only [xorBytes, List.zipWith_cons_cons]
      rw [Nat.xor_cancel_left]
      have := ih (a := ys) (by simpa using h)
      simp only [xorBytes] at this
      rw [this]

theorem cbcEncryptBlocks_mem (prev : List Nat) (blocks : List (List Nat)) :
    ∀ c ∈ cbcEncryptBlocks prev blocks, byteOk c ∧ c.length = 16 := by
  induction blocks generalizing prev with
  | nil => intro c hc; simp [cbcEncryptBlocks] at hc
  | cons p ps ih =>
    intro c hc
    simp only [cbcEncryptBlocks, List.mem_cons] at hc
    rcases hc with rfl | hc
    · exact ⟨encB_ok _, rfl⟩
    · exact ih _ c hc

theorem cbcDecrypt_cbcEncrypt {blocks : List (List Nat)} {prev : List Nat}
    (hpo : byteOk prev) (hpl : prev.length = 16)
    (hb : ∀ b ∈ blocks, byteOk b ∧ b.length = 16) :
    cbcDecryptBlocks prev (cbcEncryptBlocks prev blocks) = blocks := by
  induction blocks generalizing prev with
  | nil => rfl
  | cons p ps ih =>
    have hp := hb p (List.mem_cons_self p ps)
    have hxo : byteOk (xorBytes prev p) := xorBytes_ok hpo hp.1
    have hxl : (xorBytes prev p).length = 16 := by
      rw [xorBytes_length, hpl, hp.2]; omega
    simp only [cbcEncryptBlocks, cbcDecryptBlocks]
    rw [decB_encB hxl hxo, xorBytes_cancel (by omega),
      ih (encB_ok _) (encB_length _) (fun b hbb => hb b (List.mem_cons_of_mem p hbb))]

theorem chunk16_cons16 (y0 y1 y2 y3 y4 y5 y6 y7 y8 y9 y10 y11 y12 y13 y14 y15 : Nat)
    (rest : List Nat) :
    chunk16 (y0 :: y1 :: y2 :: y3 :: y4 :: y5 :: y6 :: y7 ::
      y8 :: y9 :: y10 :: y11 :: y12 :: y13 :: y14 :: y15 :: rest) =
      [y0, y1, y2, y3, y4, y5, y6, y7, y8, y9, y10, y11, y12, y13, y14, y15]
        :: chunk16 rest := rfl

theorem chunk16_flatten {L : List (List Nat)} (h : ∀ b ∈ L, b.length = 16) :
    chunk16 L.flatten = L := by
  induction L with
  | nil => rfl
  | cons b L ih =>
    obtain ⟨y0, y1, y2, y3, y4, y5, y6, y7, y8, y9, y10, y11, y12, y13, y14, y15, rfl⟩ :=
      length16_cases (h b (List.mem_cons_self b L))
    simp only [List.flatten_cons, List.cons_append, List.nil_append]
    rw [chunk16_cons16, ih (fun x hx => h x (List.mem_cons_of_mem _ hx))]

theorem chunk16_of_mod {l : List Nat} (hmod : l.length % 16 = 0) (hok : byteOk l) :
    ∀ b ∈ chunk16 l, byteOk b ∧ b.length = 16 := by
  induction l using chunk16.induct with
  | case1 y0 y1 y2 y3 y4 y5 y6 y7 y8 y9 y10 y11 y12 y13 y14 y15 rest ih =>
    intro b hb
    rw [chunk16_cons16] at hb
    simp only [List.mem_cons] at hb
    rcases hb with rfl | hb
    · refine ⟨?_, rfl⟩
      intro x hx
      simp only [List.mem_cons, List.not_mem_nil, or_false] at hx
      rcases hx with rfl | rfl | rfl | rfl | rfl | rfl | rfl | rfl |
        rfl | rfl | rfl | rfl | rfl | rfl | rfl | rfl <;> exact hok _ (by simp)
    · have hmod' : rest.length % 16 = 0 := by simp at hmod; omega
      have hok' : byteOk rest := by
        intro x hx; exact hok x (by simp [hx])
      exact ih hmod' hok' b hb
  | case2 =>
    intro b hb; simp [chunk16] at hb
  | case3 l h1 h2 =>
    intro b hb
    exfalso
    have hne : l ≠ [] := fun he => h2 he
    have hlen : 16 ≤ l.length := by
      have : l.length ≠ 0 := fun he => hne (List.length_eq_zero.mp he)
      omega
    obtain ⟨y0, y1, y2, y3, y4, y5, y6, y7, y8, y9, y10, y11, y12, y13, y14, y15, rest, he⟩ :=
      cons16_of_ge hlen
    exact h1 y0 y1 y2 y3 y4 y5 y6 y7 y8 y9 y10 y11 y12 y13 y14 y15 rest he

theorem flatten_len_mod {L : List (List Nat)} (h : ∀ b ∈ L, b.length = 16) :
    L.flatten.length % 16 = 0 := by
  induction L with
  | nil => rfl
  | cons b L ih =>
    simp only [List.flatten_cons, List.length_append]
    rw [h b (List.mem_cons_self b L)]
    have := ih (fun x hx => h x (List.mem_cons_of_mem _ hx))
    omega

theorem flatten_ok {L : List (List Nat)} (h : ∀ b ∈ L, byteOk b) : byteOk L.flatten := by
  intro x hx
  rw [List.mem_flatten] at hx
  obtain ⟨b, hbL, hxb⟩ := hx
  exact h b hbL x hxb

/-! ## PKCS#7 padding -/

theorem pkcs7Pad_mod (bs : List Nat) : (pkcs7Pad bs).length % 16 = 0 := by
  simp only [pkcs7Pad, List.length_append, List.length_replicate]
  omega

theorem pkcs7Pad_ok {bs : List Nat} (h : byteOk bs) : byteOk (pkcs7Pad bs) := by
  intro b hb
  simp only [pkcs7Pad, List.mem_append, List.mem_replicate] at hb
  rcases hb with hb | ⟨_, rfl⟩
  · exact h b hb
  · omega

theorem pkcs7Unpad_pkcs7Pad (bs : List Nat) : pkcs7Unpad (pkcs7Pad bs) = bs := by
  have hmod : bs.length % 16 < 16 := Nat.mod_lt _ (by omega)
  obtain ⟨k, hk⟩ : ∃ k, 16 - bs.length % 16 = k + 1 := ⟨15 - bs.length % 16, by omega⟩
  have h1 : pkcs7Pad bs =
      bs ++ (List.replicate k (16 - bs.length % 16) ++ [16 - bs.length % 16]) := by
    unfold pkcs7Pad
    rw [hk]
    dsimp only
    rw [List.replicate_succ']
  have hlast : (pkcs7Pad bs).getLastD 0 = 16 - bs.length % 16 := by
    rw [h1, ← List.append_assoc]
    simp
  have hlen : (pkcs7Pad bs).length = bs.length + (k + 1) := by
    rw [h1]; simp
  unfold pkcs7Unpad
  rw [hlast, hlen, hk, h1]
  have h2 : bs.length + (k + 1) - (k + 1) = bs.length := by omega
  rw [h2, List.take_left]

/-! ## Base64 -/

theorem ck_b64Idx : allBelow (fun k => decide (b64Idx (b64CharOf k) = some k)) 64 = true := by
  decide

theorem b64Idx_b64CharOf {k : Nat} (hk : k < 64) : b64Idx (b64CharOf k) = some k :=
  of_decide_eq_true (allBelow_spec _ 64 ck_b64Idx k hk)

theorem ck_b64_ne : allBelow (fun k => decide (b64CharOf k ≠ '=')) 64 = true := by decide

theorem b64CharOf_ne_pad {k : Nat} (hk : k < 64) : b64CharOf k ≠ '=' :=
  of_decide_eq_true (allBelow_spec _ 64 ck_b64_ne k hk)

theorem b64Decode_b64Encode {bs : List Nat} (h : byteOk bs) :
    b64Decode (b64Encode bs) = some bs := by
  induction bs using b64Encode.induct with
  | case1 => rfl
  | case2 a =>
    have ha := (byteOk_cons.mp h).1
    rw [b64Encode, b64Decode,
      b64Idx_b64CharOf (show a / 4 < 64 by omega),
      b64Idx_b64CharOf (show a % 4 * 16 < 64 by omega)]
    dsimp only
    rw [if_pos rfl, if_pos ⟨rfl, rfl⟩]
    simp only [Option.some.injEq, List.cons.injEq, and_true]
    omega
  | case3 a b =>
    have ha := (byteOk_cons.mp h).1
    have hb := (byteOk_cons.mp (byteOk_cons.mp h).2).1
    rw [b64Encode, b64Decode,
      b64Idx_b64CharOf (show a / 4 < 64 by omega),
      b64Idx_b64CharOf (show a % 4 * 16 + b / 16 < 64 by omega)]
    dsimp only
    rw [if_neg (b64CharOf_ne_pad (show b % 16 * 4 < 64 by omega)),
      b64Idx_b64CharOf (show b % 16 * 4 < 64 by omega)]
    dsimp only
    rw [if_pos rfl, if_pos rfl]
    simp only [Option.some.injEq, List.cons.injEq, and_true]
    exact ⟨by omega, by omega⟩
  | case4 a b c rest ih =>
    have ha := (byteOk_cons.mp h).1
    have hb := (byteOk_cons.mp (byteOk_cons.mp h).2).1
    have hc := (byteOk_cons.mp (byteOk_cons.mp (byteOk_cons.mp h).2).2).1
    have hrest := (byteOk_cons.mp (byteOk_cons.mp (byteOk_cons.mp h).2).2).2
    rw [b64Encode, b64Decode,
      b64Idx_b64CharOf (show a / 4 < 64 by omega),
      b64Idx_b64CharOf (show a % 4 * 16 + b / 16 < 64 by omega)]
    dsimp only
    rw [if_neg (b64CharOf_ne_pad (show b % 16 * 4 + c / 64 < 64 by omega)),
      b64Idx_b64CharOf (show b % 16 * 4 + c / 64 < 64 by omega)]
    dsimp only
    rw [if_neg (b64CharOf_ne_pad (show c % 64 < 64 by omega)),
      b64Idx_b64CharOf (show c % 64 < 64 by omega), ih hrest]
    simp only [Option.some.injEq, List.cons.injEq]
    exact ⟨by omega, by omega, by omega, trivial⟩

/-! ## UTF-8 -/

theorem char_toNat_lt (c : Char) : c.toNat < 1114112 := by
  rcases c.valid with h | ⟨h1, h2⟩
  · exact Nat.lt_trans h (by norm_num)
  · exact h2

theorem char_toNat_valid (c : Char) : Nat.isValidChar c.toNat := c.valid

theorem utf8EncodeChar_ok {n : Nat} (h : n < 1114112) : byteOk (utf8EncodeChar n) := by
  unfold utf8EncodeChar
  split_ifs <;> intro b hb <;>
    simp only [List.mem_cons, List.not_mem_nil, or_false] at hb
  · omega
  · rcases hb with rfl | rfl <;> omega
  · rcases hb with rfl | rfl | rfl <;> omega
  · rcases hb with rfl | rfl | rfl | rfl <;> omega

theorem utf8Encode_ok (s : String) : byteOk (utf8Encode s) := by
  intro b hb
  unfold utf8Encode at hb
  rw [List.mem_flatten] at hb
  obtain ⟨blk, hblk, hbb⟩ := hb
  rw [List.mem_map] at hblk
  obtain ⟨c, _, rfl⟩ := hblk
  exact utf8EncodeChar_ok (char_toNat_lt c) b hbb

theorem utf8EncodeChar_length_pos (n : Nat) : 1 ≤ (utf8EncodeChar n).length := by
  unfold utf8EncodeChar
  split_ifs <;> simp

theorem utf8DecodeF_nil (f : Nat) : utf8DecodeF f [] = some [] := by
  cases f <;> rfl

theorem utf8DecodeF_one {b : Nat} (f : Nat) (bs : List Nat) (h : b < 128) :
    utf8DecodeF (f + 1) (b :: bs) = consChar b (utf8DecodeF f bs) := by
  show (if b < 128 then consChar b (utf8DecodeF f bs) else _) = _
  rw [if_pos h]

theorem utf8DecodeF_two {b b2 : Nat} (f : Nat) (bs : List Nat) (h1 : 192 ≤ b) (h2 : b < 224)
    (hc : isCont b2 = true) (hn : 128 ≤ (b - 192) * 64 + (b2 - 128)) :
    utf8DecodeF (f + 1) (b :: b2 :: bs) =
      consChar ((b - 192) * 64 + (b2 - 128)) (utf8DecodeF f bs) := by
  show (if b < 128 then _ else if b < 192 then none else if b < 224 then _ else _) = _
  rw [if_neg (by omega), if_neg (by omega), if_pos (by omega)]
  dsimp only
  rw [if_pos hc, if_pos hn]
  rfl

theorem utf8DecodeF_three {b b2 b3 : Nat} (f : Nat) (bs : List Nat)
    (h1 : 224 ≤ b) (h2 : b < 240)
    (hc : (isCont b2 && isCont b3) = true)
    (hn : 2048 ≤ (b - 224) * 4096 + (b2 - 128) * 64 + (b3 - 128))
    (hv : Nat.isValidChar ((b - 224) * 4096 + (b2 - 128) * 64 + (b3 - 128))) :
    utf8DecodeF (f + 1) (b :: b2 :: b3 :: bs) =
      consChar ((b - 224) * 4096 + (b2 - 128) * 64 + (b3 - 128)) (utf8DecodeF f bs) := by
  show (if b < 128 then _ else if b < 192 then none else if b < 224 then _
    else if b < 240 then _ else _) = _
  rw [if_neg (by omega), if_neg (by omega), if_neg (by omega), if_pos (by omega)]
  dsimp only
  rw [if_pos hc, if_pos ⟨hn, hv⟩]
  rfl

theorem utf8DecodeF_four {b b2 b3 b4 : Nat} (f : Nat) (bs : List Nat)
    (h1 : 240 ≤ b) (h2 : b < 248)
    (hc : (isCont b2 && isCont b3 && isCont b4) = true)
    (hn : 65536 ≤ (b - 240) * 262144 + (b2 - 128) * 4096 + (b3 - 128) * 64 + (b4 - 128))
    (hn2 : (b - 240) * 262144 + (b2 - 128) * 4096 + (b3 - 128) * 64 + (b4 - 128) < 1114112) :
    utf8DecodeF (f + 1) (b :: b2 :: b3 :: b4 :: bs) =
      consChar ((b - 240) * 262144 + (b2 - 128) * 4096 + (b3 - 128) * 64 + (b4 - 128))
        (utf8DecodeF f bs) := by
  show (if b < 128 then _ else if b < 192 then none else if b < 224 then _
    else if b < 240 then _ else if b < 248 then _ else none) = _
  rw [if_neg (by omega), if_neg (by omega), if_neg (by omega), if_neg (by omega),
    if_pos (by omega)]
  dsimp only
  rw [if_pos hc, if_pos ⟨hn, hn2⟩]
  rfl

theorem utf8DecodeF_append_char (c : Char) (f : Nat) (rest : List Nat) (cs : List Char)
    (hrest : utf8DecodeF f rest = some cs) :
    utf8DecodeF (f + 1) (utf8EncodeChar c.toNat ++ rest) = some (c :: cs) := by
  have hlt : c.toNat < 1114112 := char_toNat_lt c
  have hvalid : Nat.isValidChar c.toNat := char_toNat_valid c
  by_cases h1 : c.toNat < 128
  · rw [show utf8EncodeChar c.toNat = [c.toNat] by unfold utf8EncodeChar; rw [if_pos h1]]
    rw [List.cons_append, List.nil_append, utf8DecodeF_one f rest h1, hrest]
    simp only [consChar, Char.ofNat_toNat]
  · by_cases h2 : c.toNat < 2048
    · rw [show utf8EncodeChar c.toNat = [192 + c.toNat / 64, 128 + c.toNat % 64] by
        unfold utf8EncodeChar; rw [if_neg h1, if_pos h2]]
      simp only [List.cons_append, List.nil_append]
      rw [utf8DecodeF_two f rest (by omega) (by omega)
        (by simp only [isCont, Bool.and_eq_true, decide_eq_true_eq]; omega) (by omega)]
      rw [show (192 + c.toNat / 64 - 192) * 64 + (128 + c.toNat % 64 - 128) = c.toNat by omega,
        hrest]
      simp only [consChar, Char.ofNat_toNat]
    · by_cases h3 : c.toNat < 65536
      · rw [show utf8EncodeChar c.toNat =
            [224 + c.toNat / 4096, 128 + c.toNat / 64 % 64, 128 + c.toNat % 64] by
          unfold utf8EncodeChar; rw [if_neg h1, if_neg h2, if_pos h3]]
        simp only [List.cons_append, List.nil_append]
        have heq : (224 + c.toNat / 4096 - 224) * 4096 + (128 + c.toNat / 64 % 64 - 128) * 64 +
            (128 + c.toNat % 64 - 128) = c.toNat := by omega
        rw [utf8DecodeF_three f rest (by omega) (by omega)
          (by simp only [isCont, Bool.and_eq_true, decide_eq_true_eq]; omega)
          (by omega) (by rw [heq]; exact hvalid)]
        rw [heq, hrest]
        simp only [consChar, Char.ofNat_toNat]
      · rw [show utf8EncodeChar c.toNat =
            [240 + c.toNat / 262144, 128 + c.toNat / 4096 % 64,
             128 + c.toNat / 64 % 64, 128 + c.toNat % 64] by
          unfold utf8EncodeChar; rw [if_neg h1, if_neg h2, if_neg h3]]
        simp only [List.cons_append, List.nil_append]
        have heq : (240 + c.toNat / 262144 - 240) * 262144 + (128 + c.toNat / 4096 % 64 - 128) * 4096 +
            (128 + c.toNat / 64 % 64 - 128) * 64 + (128 + c.toNat % 64 - 128) = c.toNat := by omega
        rw [utf8DecodeF_four f rest (by omega) (by omega)
          (by simp only [isCont, Bool.and_eq_true, decide_eq_true_eq]; omega)
          (by omega) (by omega)]
        rw [heq, hrest]
        simp only [consChar, Char.ofNat_toNat]

theorem utf8DecodeF_flat (cs : List Char) :
    ∀ f : Nat, ((cs.map fun c => utf8EncodeChar c.toNat).flatten).length ≤ f →
      utf8DecodeF f ((cs.map fun c => utf8EncodeChar c.toNat).flatten) = some cs := by
  induction cs with
  | nil => intro f _; exact utf8DecodeF_nil f
  | cons c cs ih =>
    intro f hf
    simp only [List.map_cons, List.flatten_cons] at hf ⊢
    have hpos := utf8EncodeChar_length_pos c.toNat
    obtain ⟨f', rfl⟩ : ∃ f', f = f' + 1 := by
      refine ⟨f - 1, ?_⟩
      rw [List.length_append] at hf
      omega
    apply utf8DecodeF_append_char
    apply ih
    rw [List.length_append] at hf
    omega

theorem utf8Decode_utf8Encode (s : String) : utf8Decode (utf8Encode s) = some s.data := by
  unfold utf8Decode utf8Encode
  exact utf8DecodeF_flat s.data _ (by omega)

/-! ## The decrypt/encrypt pipeline -/

theorem flatten_chunk16_mod {l : List Nat} (hmod : l.length % 16 = 0) :
    (chunk16 l).flatten = l := by
  suffices h : ∀ n l2, List.length l2 ≤ n → List.length l2 % 16 = 0 →
      (chunk16 l2).flatten = l2 from h l.length l (Nat.le_refl _) hmod
  intro n
  induction n with
  | zero =>
    intro l2 hl hm
    have : l2 = [] := List.length_eq_zero.mp (by omega)
    subst this; rfl
  | succ n ih =>
    intro l2 hl hm
    by_cases hnil : l2 = []
    · subst hnil; rfl
    · have hge : 16 ≤ l2.length := by
        have : l2.length ≠ 0 := fun h0 => hnil (List.length_eq_zero.mp h0)
        omega
      obtain ⟨y0, y1, y2, y3, y4, y5, y6, y7, y8, y9, y10, y11, y12, y13, y14, y15, rest, rfl⟩ :=
        cons16_of_ge hge
      rw [chunk16_cons16, List.flatten_cons]
      have hrl : rest.length ≤ n := by
        simp only [List.length_cons] at hl; omega
      have hrm : rest.length % 16 = 0 := by
        simp only [List.length_cons] at hm; omega
      rw [ih rest hrl hrm]
      rfl

theorem zeroIV_ok : byteOk zeroIV := by
  intro b hb
  simp only [zeroIV, List.mem_replicate] at hb
  omega

theorem zeroIV_length : zeroIV.length = 16 := rfl

theorem utf8DecodeString_utf8Encode (s : String) :
    utf8DecodeString (utf8Encode s) = some s := by
  unfold utf8DecodeString
  rw [utf8Decode_utf8Encode]

/-- The raw cipher stage inverts the modelled encryption pipeline. -/
theorem rawDecrypt_encrypt (x : String) : rawDecrypt (encrypt x) = some (utf8Encode x) := by
  have hct := cbcEncryptBlocks_mem zeroIV (chunk16 (pkcs7Pad (utf8Encode x)))
  have hct_ok : byteOk (cbcEncryptBlocks zeroIV (chunk16 (pkcs7Pad (utf8Encode x)))).flatten :=
    flatten_ok (fun b hb => (hct b hb).1)
  have hct_mod :
      (cbcEncryptBlocks zeroIV (chunk16 (pkcs7Pad (utf8Encode x)))).flatten.length % 16 = 0 :=
    flatten_len_mod (fun b hb => (hct b hb).2)
  unfold rawDecrypt encrypt
  rw [show (String.mk (b64Encode
      (cbcEncryptBlocks zeroIV (chunk16 (pkcs7Pad (utf8Encode x)))).flatten)).data =
      b64Encode (cbcEncryptBlocks zeroIV (chunk16 (pkcs7Pad (utf8Encode x)))).flatten from rfl]
  rw [b64Decode_b64Encode hct_ok]
  dsimp only
  rw [if_pos hct_mod,
    chunk16_flatten (fun b hb => (hct b hb).2),
    cbcDecrypt_cbcEncrypt zeroIV_ok zeroIV_length
      (chunk16_of_mod (pkcs7Pad_mod _) (pkcs7Pad_ok (utf8Encode_ok x))),
    flatten_chunk16_mod (pkcs7Pad_mod _),
    pkcs7Unpad_pkcs7Pad]

/-! # Claim theorems -/

/-- C1: for every input string on which the AES decryption stage under the
fixed key throws an error, or yields an empty or non-UTF-8 plaintext,
`decrypt` returns the original input string unchanged, and no partial
output is produced. -/
theorem claim_C1_decrypt_fallback (s : String)
    (h : rawDecrypt s = none ∨
      ∃ bs, rawDecrypt s = some bs ∧
        (utf8DecodeString bs = none ∨ utf8DecodeString bs = some "")) :
    decrypt s = s := by
  unfold decrypt
  rcases h with h | ⟨bs, hbs, h2 | h2⟩
  · rw [h]
  · rw [hbs]; dsimp only; rw [h2]
  · rw [hbs]; dsimp only; rw [h2]; dsimp only; rw [if_pos rfl]

/-- C1 witness: `"!!!"` is not valid Base64, so the cipher stage fails and
`decrypt` passes it through. -/
theorem claim_C1_decrypt_fallback_witness : decrypt "!!!" = "!!!" :=
  claim_C1_decrypt_fallback "!!!" (Or.inl (by decide))

/-- C2 counterexample: the claim fails at the empty plaintext.  The
decrypted empty string is falsy in JavaScript, so `decrypt` falls back to
returning the ciphertext (`decrypted.toString(Utf8) || encryptString`) and
`decrypt (encrypt "") ≠ ""`. -/
theorem claim_C2_counterexample : decrypt (encrypt "") ≠ "" := by decide

/-- C2 (amended): for every non-empty plaintext string `x`, decrypting the
ciphertext produced by the paired AES-CBC encryption routine under the
fixed 16-byte key `'Y0rkn0v3lty!@#$%'` and the all-zero IV returns `x`. -/
theorem claim_C2_roundtrip {x : String} (hx : x ≠ "") : decrypt (encrypt x) = x := by
  unfold decrypt
  rw [rawDecrypt_encrypt]
  dsimp only
  rw [utf8DecodeString_utf8Encode]
  dsimp only
  rw [if_neg hx]

/-- C2 witness: the round trip at the concrete plaintext `"A"`. -/
theorem claim_C2_roundtrip_witness : "A" ≠ "" ∧ decrypt (encrypt "A") = "A" :=
  ⟨by decide, claim_C2_roundtrip (by decide)⟩

/-! ## Scan-result routing lemmas -/

theorem jsSplit_ne_nil (sep : Char) (l : List Char) : jsSplit sep l ≠ [] := by
  induction l with
  | nil => simp [jsSplit]
  | cons c cs ih =>
    rw [jsSplit]
    split
    · simp
    · split
      · simp
      · simp

theorem jsSplit_headD (sep : Char) (l : List Char) :
    (jsSplit sep l).headD [] = l.takeWhile (fun c => c ≠ sep) := by
  induction l with
  | nil => rfl
  | cons c cs ih =>
    rw [jsSplit]
    by_cases h : c = sep
    · rw [if_pos h]
      simp [List.takeWhile_cons, h]
    · rw [if_neg h]
      cases hsp : jsSplit sep cs with
      | nil => exact absurd hsp (jsSplit_ne_nil sep cs)
      | cons r rs =>
        rw [hsp] at ih
        simp only [List.headD_cons] at ih
        simp [List.takeWhile_cons, h, ih]

/-- C9: the two branches of the comma-check conditional in `handleScan`
are behaviourally equivalent: for every decrypted text the computed id is
the trimmed first element of the comma split (the trimmed text before the
first comma) and the image URL is set iff that id is non-empty — the
`includes(',')` test does not affect the result. -/
theorem claim_C9_branches_equivalent (t : String) : handleScanRoute t = routeSpec t := by
  unfold handleScanRoute routeSpec
  by_cases h : t ≠ "" ∧ ',' ∈ t.data
  · rw [if_pos h, jsSplit_headD]
  · rw [if_neg h, jsSplit_headD]

/-- C3: for every decrypted text containing a comma, the routing takes as
id the trimmed substring before the first comma and produces the templated
image URL exactly when that id is non-empty; in particular
`"81749,PQM250375"` routes to id `"81749"` and the URL ending in
`81749.jpg`. -/
theorem claim_C3_comma_routing (t : String) (h : ',' ∈ t.data) :
    (handleScanRoute t =
      (if String.mk (jsTrim (t.data.takeWhile (fun c => c ≠ ','))) = "" then ⟨none, none⟩
       else ⟨some (String.mk (jsTrim (t.data.takeWhile (fun c => c ≠ ',')))),
             some (imageUrlFor (String.mk (jsTrim (t.data.takeWhile (fun c => c ≠ ',')))))⟩)) ∧
    handleScanRoute "81749,PQM250375" =
      ⟨some "81749", some "https://yorkapi.blob.core.windows.net/yorkimages/81749.jpg"⟩ := by
  refine ⟨?_, by decide⟩
  have ht : t ≠ "" := by
    intro he
    subst he
    simp at h
  unfold handleScanRoute
  rw [if_pos ⟨ht, h⟩, jsSplit_headD]
  by_cases hid : String.mk (jsTrim (t.data.takeWhile (fun c => c ≠ ','))) = ""
  · rw [if_pos hid, if_neg (by simpa using hid)]
  · rw [if_neg hid, if_pos (by simpa using hid)]

/-- C3 witness: the routing at the concrete text `"81749,PQM250375"`. -/
theorem claim_C3_comma_routing_witness :
    handleScanRoute "81749,PQM250375" =
      ⟨some "81749", some "https://yorkapi.blob.core.windows.net/yorkimages/81749.jpg"⟩ :=
  (claim_C3_comma_routing "81749,PQM250375" (by decide)).2

/-- C4: for every decrypted text with no comma, the entire trimmed string
is the id: when it is non-empty an image URL is built from it, and for the
empty string no id and no image URL are produced. -/
theorem claim_C4_no_comma_routing (t : String) (h : ¬ ',' ∈ t.data) :
    (handleScanRoute t =
      (if String.mk (jsTrim t.data) = "" then ⟨none, none⟩
       else ⟨some (String.mk (jsTrim t.data)), some (imageUrlFor (String.mk (jsTrim t.data)))⟩)) ∧
    handleScanRoute "NOCOMMA123" =
      ⟨some "NOCOMMA123", some "https://yorkapi.blob.core.windows.net/yorkimages/NOCOMMA123.jpg"⟩ ∧
    handleScanRoute "" = ⟨none, none⟩ := by
  refine ⟨?_, by decide, by decide⟩
  have htw : t.data.takeWhile (fun c => c ≠ ',') = t.data := by
    rw [List.takeWhile_eq_self_iff]
    intro x hx
    simp only [ne_eq, decide_eq_true_eq]
    intro he
    exact h (he ▸ hx)
  unfold handleScanRoute
  rw [if_neg (fun hcond => h hcond.2), jsSplit_headD, htw]
  by_cases hid : String.mk (jsTrim t.data) = ""
  · rw [if_pos hid, if_neg (by simpa using hid)]
  · rw [if_neg hid, if_pos (by simpa using hid)]

/-- C4 witness: the routing at the concrete text `"NOCOMMA123"`. -/
theorem claim_C4_no_comma_routing_witness :
    handleScanRoute "NOCOMMA123" =
      ⟨some "NOCOMMA123", some "https://yorkapi.blob.core.windows.net/yorkimages/NOCOMMA123.jpg"⟩ :=
  (claim_C4_no_comma_routing "NOCOMMA123" (by decide)).2.1

/-! ## Camera-session lemmas and claims -/

theorem jsFindBack_find (l : List CameraDevice) :
    jsFindBack l = l.find? (fun dv => labelHasBack dv.label) := by
  induction l with
  | nil => rfl
  | cons d ds ih =>
    rw [jsFindBack, List.find?]
    by_cases h : labelHasBack d.label
    · rw [if_pos h, h]
    · rw [if_neg h, eq_false_of_ne_true h, ih]

/-- C5 counterexample: the claim fails when the first back-labelled device
has an empty id — JavaScript's `|| devices[0].id` treats the empty string
as falsy, so the code selects `"a"` where the claim demands `""`. -/
theorem claim_C5_counterexample :
    selectCameraId [⟨"a", "Front"⟩, ⟨"", "back"⟩] = some "a" ∧
    selectCameraId [⟨"a", "Front"⟩, ⟨"", "back"⟩] ≠ some "" := by
  constructor
  · rfl
  · decide

/-- C5 (amended): for every non-empty device list, initialization selects
the id of the first device whose lowercased label contains `"back"` when
that id is non-empty; when the found id is empty, or no label matches, it
selects the first enumerated device's id; in particular
`[{a, Front}, {b, Back Camera}]` selects `"b"`. -/
theorem claim_C5_default_device (d : CameraDevice) (ds : List CameraDevice) :
    (∀ f, (d :: ds).find? (fun dv => labelHasBack dv.label) = some f → f.id ≠ "" →
      selectCameraId (d :: ds) = some f.id) ∧
    (∀ f, (d :: ds).find? (fun dv => labelHasBack dv.label) = some f → f.id = "" →
      selectCameraId (d :: ds) = some d.id) ∧
    ((d :: ds).find? (fun dv => labelHasBack dv.label) = none →
      selectCameraId (d :: ds) = some d.id) ∧
    selectCameraId [⟨"a", "Front"⟩, ⟨"b", "Back Camera"⟩] = some "b" := by
  refine ⟨?_, ?_, ?_, by decide⟩
  · intro f hf hne
    unfold selectCameraId chooseCameraId
    dsimp only
    rw [jsFindBack_find, hf]
    dsimp only
    rw [if_neg hne]
  · intro f hf he
    unfold selectCameraId chooseCameraId
    dsimp only
    rw [jsFindBack_find, hf]
    dsimp only
    rw [if_pos he]
  · intro hf
    unfold selectCameraId chooseCameraId
    dsimp only
    rw [jsFindBack_find, hf]

/-- C5 witness: the amended selection at the concrete device list of the
claim. -/
theorem claim_C5_default_device_witness :
    selectCameraId [⟨"a", "Front"⟩, ⟨"b", "Back Camera"⟩] = some "b" :=
  (claim_C5_default_device ⟨"a", "Front"⟩ [⟨"b", "Back Camera"⟩]).1
    ⟨"b", "Back Camera"⟩ (by decide) (by decide)

/-- C6: `handleStop` is idempotent: on an already idle session (not
scanning, not loading, no live handle) it is a no-op that raises no error,
and two stops in a row leave the session not scanning and not loading
after each call, whatever the engine's stop/clear outcomes. -/
theorem claim_C6_stop_idempotent (io io2 : LibIO) (s : CState) :
    (s.isScanning = false → s.loading = false →
      (∀ h, s.scannerRef = some h → h.isScanning = false) →
      handleStop io s = s) ∧
    ((handleStop io s).isScanning = false ∧ (handleStop io s).loading = false ∧
      (handleStop io2 (handleStop io s)).isScanning = false ∧
      (handleStop io2 (handleStop io s)).loading = false) := by
  constructor
  · intro h1 h2 h3
    cases s with
    | mk i l p e r =>
      dsimp only at h1 h2 h3
      subst h1 h2
      cases r with
      | none =>
        cases io with
        | mk st ct => cases st <;> cases ct <;> rfl
      | some h =>
        cases h with
        | mk hsc dev =>
          have hh : hsc = false := h3 ⟨hsc, dev⟩ rfl
          subst hh
          cases io with
          | mk st ct => cases st <;> cases ct <;> rfl
  · exact ⟨rfl, rfl, rfl, rfl⟩

/-- C6 witness: stopping an idle session with a concrete engine outcome is
a no-op. -/
theorem claim_C6_stop_idempotent_witness :
    handleStop ⟨true, true⟩ ⟨false, false, false, "", none⟩ =
      (⟨false, false, false, "", none⟩ : CState) :=
  (claim_C6_stop_idempotent ⟨true, true⟩ ⟨false, false⟩ _).1 rfl rfl
    (fun _ hh => Option.noConfusion hh)

/-- C10: `handleStop` absorbs every error of the underlying stream halt
and surface clear — it never propagates an exception, and on every
completion, including the error path, it leaves `isScanning = false` and
`loading = false` (keeping the handle state reached when the exception was
thrown). -/
theorem claim_C10_stop_absorbs (io : LibIO) (s : CState) :
    ((handleStop io s).isScanning = false ∧ (handleStop io s).loading = false) ∧
    (∀ h e, s.scannerRef = some h → stopAndClear io h = .error e →
      handleStop io s = { s with scannerRef := some e.1, isScanning := false, loading := false }) := by
  constructor
  · exact ⟨rfl, rfl⟩
  · intro h e href herr
    unfold handleStop
    rw [href]
    dsimp only
    rw [herr]

/-- C10 witness: a concrete session whose stop throws still ends
not-scanning and not-loading with the error swallowed. -/
theorem claim_C10_stop_absorbs_witness :
    handleStop ⟨true, true⟩ ⟨true, true, false, "", some ⟨true, none⟩⟩ =
      { (⟨true, true, false, "", some ⟨true, none⟩⟩ : CState) with
          scannerRef := some (⟨true, none⟩ : ScannerHandle),
          isScanning := false, loading := false } :=
  (claim_C10_stop_absorbs ⟨true, true⟩ _).2 ⟨true, none⟩
    (⟨true, none⟩, "Failed to stop scanner") rfl rfl

/-- C8 counterexample: an enumeration failure is not surfaced verbatim —
the code wraps it (`"Could not access camera device. " + err`), so for an
error with message `"Permission denied"` the surfaced message differs from
the error's message string. -/
theorem claim_C8_counterexample :
    (startScanning ⟨.error ⟨"Permission denied", "Error: Permission denied"⟩, none⟩
      ⟨false, false⟩ ⟨false, true, false, "", none⟩).errorMessage =
        "Could not access camera device. Error: Permission denied" ∧
    (startScanning ⟨.error ⟨"Permission denied", "Error: Permission denied"⟩, none⟩
      ⟨false, false⟩ ⟨false, true, false, "", none⟩).errorMessage ≠ "Permission denied" := by
  constructor
  · rfl
  · decide

/-- C8 (amended): every camera-lifecycle failure (enumeration error, zero
devices, device start failure) halts the scanning attempt in the error
state — `permissionError` set, not scanning, not loading — with the
surfaced message computed by `errToMessage` from the caught error, where
enumeration failures are first wrapped with the prefix
`"Could not access camera device. "` and an empty device list surfaces
`"No camera devices found."`; and without a user event the component makes
no further transition (no automatic retry). -/
theorem claim_C8_failures_surfaced (env : StartEnv) (io : LibIO) (s : CState) :
    (∀ e, env.enumerate = .error e →
      (startScanning env io s).permissionError = true ∧
      (startScanning env io s).isScanning = false ∧
      (startScanning env io s).loading = false ∧
      (startScanning env io s).errorMessage = errToMessage (wrapEnumErr e)) ∧
    (env.enumerate = .ok [] →
      (startScanning env io s).permissionError = true ∧
      (startScanning env io s).isScanning = false ∧
      (startScanning env io s).loading = false ∧
      (startScanning env io s).errorMessage = "No camera devices found.") ∧
    (∀ d ds e, env.enumerate = .ok (d :: ds) → env.startFails = some e →
      (startScanning env io s).permissionError = true ∧
      (startScanning env io s).isScanning = false ∧
      (startScanning env io s).loading = false ∧
      (startScanning env io s).errorMessage = errToMessage e) ∧
    (∀ env2 io2 s2, componentStep env2 io2 s2 none = s2) := by
  refine ⟨?_, ?_, ?_, fun _ _ _ => rfl⟩
  · intro e he
    unfold startScanning
    rw [he]
    unfold startCatch handleStop
    exact ⟨rfl, rfl, rfl, rfl⟩
  · intro he
    unfold startScanning
    rw [he]
    unfold startCatch handleStop
    exact ⟨rfl, rfl, rfl, rfl⟩
  · intro d ds e he hf
    unfold startScanning
    rw [he]
    dsimp only
    rw [hf]
    unfold startCatch handleStop
    exact ⟨rfl, rfl, rfl, rfl⟩

/-- C8 witness: a concrete zero-device enumeration halts with the
no-device message. -/
theorem claim_C8_failures_surfaced_witness :
    (startScanning ⟨.ok [], none⟩ ⟨false, false⟩ ⟨false, true, false, "", none⟩).errorMessage =
      "No camera devices found." :=
  ((claim_C8_failures_surfaced ⟨.ok [], none⟩ ⟨false, false⟩
    ⟨false, true, false, "", none⟩).2.1 rfl).2.2.2

end QRScan


